import Mathlib

/-!
# Shallow embedding of the `typechecker` core

This file embeds the core of the repository (expression tree, substitution,
pattern matcher, normaliser/expander, symbol registry, constraint solver and
the elaborator driver `analyse`) as executable Lean definitions, translated
from `src/expression.ts`, `src/solver.ts` and `src/parser.ts`, and proves or
refutes the specification claims about them.

Conventions:
* JS `Map`/`Set` become association lists / duplicate-free lists that keep
  insertion order (matching JS iteration order).
* JS `undefined` becomes `Option.none`.
* Work-stack loops become structural (or fueled) recursion with the same
  evaluation order.
* Code paths that would throw (failed `assert`, property access on
  `undefined`, `panic()`) are modelled by returning `none` from an
  `Option`-valued function.
-/

namespace TC

/-- A symbol handle: a dense index into a registry (`Symbol` in
`expression.ts`). -/
abbrev Symbol := Nat

/-- The core expression tree (`Expression` in `expression.ts`).  Source
ranges, which carry no semantics, are dropped. -/
inductive Expression where
  | sym (symbol : Symbol)
  | call (fn : Expression) (args : List Expression)
  | lam (arg : Symbol) (body : Expression)
  | fnType (inputType outputType : Expression) (arg : Option Symbol)
  | pat (pvar : Option Symbol)
  | placeholder
  | universe (subscript : Expression)
  | levelType
  | level (value : Nat)
  | levelSucc (expr : Expression)
  | levelMax (lhs rhs : Expression)
  deriving Repr

/-- A substitution map, `Map<Symbol, Expression>` with JS insertion-order
semantics. -/
abbrev Subst := List (Symbol × Expression)

/-- `Map.get` on an association list. -/
def lookupS (m : Subst) (s : Symbol) : Option Expression :=
  match m with
  | [] => none
  | (k, v) :: rest => if k = s then some v else lookupS rest s

/-- `Map.has` on an association list. -/
def containsS (m : Subst) (s : Symbol) : Bool :=
  (lookupS m s).isSome

/-- `Map.delete` on an association list. -/
def eraseS (m : Subst) (s : Symbol) : Subst :=
  m.filter (fun p => p.1 ≠ s)

/-- `Map.set` on an association list: overwrite in place, append new keys
(JS `Map` keeps the original insertion position on overwrite). -/
def insertS (m : Subst) (s : Symbol) (v : Expression) : Subst :=
  match m with
  | [] => [(s, v)]
  | (k, w) :: rest => if k = s then (k, v) :: rest else (k, w) :: insertS rest s v

mutual

/-- The substitution core, `Replacer._replace` in `expression.ts`.

Faithful points of the source:
* `SYMBOL` nodes are looked up in the map;
* a dependent `FN_TYPE` whose `arg` is in the map masks (`delete`s) the
  binder while replacing the output type and restores it afterwards;
* the `LAMBDA` case saves and restores the old binding but **never deletes
  it**, so the body is replaced with the binder still in the map
  (`src/expression.ts` `Replacer._replace`, `LAMBDA` case);
* the `default` branch pushes every other node (including `LEVEL_SUCC` and
  `LEVEL_MAX`) back unchanged, without descending. -/
def replaceE (maps : Subst) : Expression → Expression
  | .sym s =>
    match lookupS maps s with
    | some v => v
    | none => .sym s
  | .fnType inputType outputType arg =>
    match arg with
    | none => .fnType (replaceE maps inputType) (replaceE maps outputType) none
    | some a =>
      if containsS maps a then
        .fnType (replaceE maps inputType) (replaceE (eraseS maps a) outputType) (some a)
      else
        .fnType (replaceE maps inputType) (replaceE maps outputType) (some a)
  | .lam arg body => .lam arg (replaceE maps body)
  | .call fn args => .call (replaceE maps fn) (replaceEList maps args)
  | .universe subscript => .universe (replaceE maps subscript)
  | .pat v => .pat v
  | .placeholder => .placeholder
  | .levelType => .levelType
  | .level v => .level v
  | .levelSucc e => .levelSucc e
  | .levelMax l r => .levelMax l r

/-- `Replacer._replace` mapped over call arguments. -/
def replaceEList (maps : Subst) : List Expression → List Expression
  | [] => []
  | e :: rest => replaceE maps e :: replaceEList maps rest

end

/-- `replaceOneSymbol` in `expression.ts`. -/
def replaceOneSymbol (expr : Expression) (source : Symbol) (replacement : Expression) : Expression :=
  replaceE [(source, replacement)] expr

/-- `replaceSymbols` in `expression.ts`. -/
def replaceSymbols (expr : Expression) (map : Subst) : Expression :=
  replaceE map expr

/-- Outcome of `matchPattern`:  `noFuel` models non-termination of the
model's fuel, `panicked` the `default: panic()` branch, `failed` a `null`
return, `matched` a returned substitution map. -/
inductive MatchResult where
  | noFuel
  | panicked
  | failed
  | matched (substitutes : Subst)
  deriving Repr

/-- The worklist loop of `matchPattern` in `expression.ts` (the current,
second version of the file).  Each todo item is a `(pattern, expr)` pair;
the list head is the top of the JS stack.

Faithful points of the source:
* a `PATTERN` with a variable already bound re-pushes the old binding as a
  pattern against the subject;
* the `LAMBDA` case renames the subject's binder to the pattern's binder in
  the subject body;
* the `FN_TYPE` case, when both sides are dependent with distinct binders,
  substitutes **the whole pattern expression** (not the pattern's binder
  symbol) for the subject's binder in the subject's output type;
* the `LEVEL_SUCC` case handles a `LEVEL_SUCC` or `LEVEL` subject, and
  silently falls through (continuing as a success) for any other subject
  kind. -/
def matchLoop (fuel : Nat) (todo : List (Expression × Expression)) (substitutes : Subst) :
    MatchResult :=
  match fuel with
  | 0 => .noFuel
  | fuel + 1 =>
    match todo with
    | [] => .matched substitutes
    | (pattern, expr) :: rest =>
      match pattern with
      | .sym ps =>
        match expr with
        | .sym es => if ps = es then matchLoop fuel rest substitutes else .failed
        | _ => .failed
      | .pat v =>
        match v with
        | some v =>
          match lookupS substitutes v with
          | some old => matchLoop fuel ((old, expr) :: rest) substitutes
          | none => matchLoop fuel rest (insertS substitutes v expr)
        | none => matchLoop fuel rest substitutes
      | .call pfn pargs =>
        match expr with
        | .call efn eargs =>
          if eargs.length = pargs.length then
            matchLoop fuel ((pfn, efn) :: (List.zip pargs eargs ++ rest)) substitutes
          else .failed
        | _ => .failed
      | .lam parg pbody =>
        match expr with
        | .lam earg ebody =>
          matchLoop fuel
            ((pbody, if earg ≠ parg then replaceOneSymbol ebody earg (.sym parg) else ebody) :: rest)
            substitutes
        | _ => .failed
      | .fnType pin pout parg =>
        match expr with
        | .fnType ein eout earg =>
          let eoutAdjusted :=
            match parg, earg with
            | some pa, some ea =>
              if pa ≠ ea then replaceOneSymbol eout ea (.fnType pin pout parg) else eout
            | _, _ => eout
          matchLoop fuel ((pin, ein) :: (pout, eoutAdjusted) :: rest) substitutes
        | _ => .failed
      | .universe psub =>
        match expr with
        | .universe esub => matchLoop fuel ((psub, esub) :: rest) substitutes
        | _ => .failed
      | .levelType =>
        match expr with
        | .levelType => matchLoop fuel rest substitutes
        | _ => .failed
      | .levelSucc pinner =>
        match expr with
        | .levelSucc einner => matchLoop fuel ((pinner, einner) :: rest) substitutes
        | .level n =>
          if 0 < n then matchLoop fuel ((pinner, .level (n - 1)) :: rest) substitutes
          else .failed
        | _ => matchLoop fuel rest substitutes
      | .level _ => .panicked
      | .levelMax _ _ => .panicked
      | .placeholder => .panicked

/-- `matchPattern(expr, pattern)` in `expression.ts`. -/
def matchPattern (fuel : Nat) (expr pattern : Expression) : MatchResult :=
  matchLoop fuel [(pattern, expr)] []

/-- A rewrite rule on a head symbol, as pushed by `processOneDeclaration` in
`parser.ts` and consumed by the solver's final check (`{lhs, rhs, patterns}`). -/
structure ExpressionRule where
  patterns : List Symbol
  lhs : Expression
  rhs : Expression
  deriving Repr

/-- `SymbolEntry` in `expression.ts` (current version): name, parent,
`isLocal`, children map, and the variable info fields. -/
structure SymbolEntry where
  name : String
  parent : Option Symbol
  isLocal : Bool
  subSymbols : List (String × Symbol) := []
  type : Option Expression := none
  ownValue : Option Expression := none
  downValue : Option (List ExpressionRule) := none
  deriving Repr

/-- `Map.get` on a name map. -/
def lookupN (m : List (String × Symbol)) (name : String) : Option Symbol :=
  match m with
  | [] => none
  | (k, v) :: rest => if k = name then some v else lookupN rest name

/-- `Map.set` on a name map (insertion order preserved on overwrite). -/
def insertN (m : List (String × Symbol)) (name : String) (v : Symbol) :
    List (String × Symbol) :=
  match m with
  | [] => [(name, v)]
  | (k, w) :: rest =>
    if k = name then (k, v) :: rest else (k, w) :: insertN rest name v

/-- `Map.delete` on a name map. -/
def eraseN (m : List (String × Symbol)) (name : String) : List (String × Symbol) :=
  m.filter (fun p => p.1 ≠ name)

/-- Write the element at an index (no-op when out of range), for mutating
one registry slot. -/
def listSet {α : Type} : List α → Nat → α → List α
  | [], _, _ => []
  | _ :: rest, 0, a => a :: rest
  | x :: rest, n + 1, a => x :: listSet rest n a

/-- `SymbolRegistry` in `expression.ts`: dense entry array, root name map,
and the free-slot stack (modelled with the list head as the stack top). -/
structure SymbolRegistry where
  entriesById : List SymbolEntry := []
  entriesByName : List (String × Symbol) := []
  removedSymbols : List Symbol := []
  deriving Repr

namespace SymbolRegistry

/-- `getSymbolCount`. -/
def getSymbolCount (r : SymbolRegistry) : Nat :=
  r.entriesById.length

/-- `tryGetSymbolEntry` (returns `null` outside `[0, count)`). -/
def tryGetSymbolEntry (r : SymbolRegistry) (s : Symbol) : Option SymbolEntry :=
  r.entriesById.get? s

/-- `getSymbolEntry`: `tryGetSymbolEntry ?? panic()`; the panic is the
`none` outcome. -/
def getSymbolEntry (r : SymbolRegistry) (s : Symbol) : Option SymbolEntry :=
  r.tryGetSymbolEntry s

/-- Update the entry stored for handle `s`. -/
def setEntry (r : SymbolRegistry) (s : Symbol) (e : SymbolEntry) : SymbolRegistry :=
  { r with entriesById := listSet r.entriesById s e }

/-- `private createSymbol`: reuse a freed slot when possible, else append;
then link the new handle under its parent (or the root map). -/
def createSymbol (r : SymbolRegistry) (parent : Option Symbol) (name : String)
    (isLocal : Bool) : Symbol × SymbolRegistry :=
  let fresh : SymbolEntry := { name := name, parent := parent, isLocal := isLocal }
  let (ret, r1) :=
    match r.removedSymbols with
    | ret :: rest =>
      (ret, { r with entriesById := listSet r.entriesById ret fresh, removedSymbols := rest })
    | [] =>
      (r.entriesById.length, { r with entriesById := r.entriesById ++ [fresh] })
  match parent with
  | some p =>
    match r1.entriesById.get? p with
    | some pe =>
      (ret, r1.setEntry p { pe with subSymbols := insertN pe.subSymbols name ret })
    | none => (ret, r1)
  | none => (ret, { r1 with entriesByName := insertN r1.entriesByName name ret })

/-- `addNewSymbol`; `none` models the crash on an invalid parent handle. -/
def addNewSymbol (r : SymbolRegistry) (parent : Option Symbol) (name : String)
    (isLocal : Bool) : Option (Symbol × Bool × SymbolRegistry) :=
  match parent with
  | some p =>
    match r.entriesById.get? p with
    | none => none
    | some pe =>
      match lookupN pe.subSymbols name with
      | some s => some (s, false, r)
      | none =>
        let (ret, r') := r.createSymbol parent name isLocal
        some (ret, true, r')
  | none =>
    match lookupN r.entriesByName name with
    | some s => some (s, false, r)
    | none =>
      let (ret, r') := r.createSymbol parent name isLocal
      some (ret, true, r')

/-- `getSymbol` (lookup, optionally creating); the inner `Option` is the JS
`null` result. -/
def getSymbol (r : SymbolRegistry) (parent : Option Symbol) (name : String)
    (create : Bool) : Option (Option Symbol × SymbolRegistry) :=
  match parent with
  | some p =>
    match r.entriesById.get? p with
    | none => none
    | some pe =>
      match lookupN pe.subSymbols name with
      | some s => some (some s, r)
      | none =>
        if create then
          (r.addNewSymbol parent name false).map (fun x => (some x.1, x.2.2))
        else some (none, r)
  | none =>
    match lookupN r.entriesByName name with
    | some s => some (some s, r)
    | none =>
      if create then
        (r.addNewSymbol parent name false).map (fun x => (some x.1, x.2.2))
      else some (none, r)

/-- `removeSymbol`: unlink the entry's name from its parent's child map
(top-level names stay in the root map) and free the slot for reuse. -/
def removeSymbol (r : SymbolRegistry) (s : Symbol) : Option SymbolRegistry :=
  match r.getSymbolEntry s with
  | none => none
  | some e =>
    let r1 :=
      match e.parent with
      | some p =>
        match r.entriesById.get? p with
        | some pe => r.setEntry p { pe with subSymbols := eraseN pe.subSymbols e.name }
        | none => r
      | none => r
    some { r1 with removedSymbols := s :: r1.removedSymbols }

end SymbolRegistry

/-- `TempSymbolRegistry.getSymbolEntry`: handles below the permanent count
go to the parent registry, the rest index the temp array. -/
def getSymbolEntryT (ctx : SymbolRegistry) (temps : List SymbolEntry) (s : Symbol) :
    Option SymbolEntry :=
  if s < ctx.getSymbolCount then ctx.getSymbolEntry s
  else temps.get? (s - ctx.getSymbolCount)

/-- `TempSymbolRegistry.isTempSymbol`: the threshold test. -/
def isTempSymbol (ctx : SymbolRegistry) (s : Symbol) : Bool :=
  ctx.getSymbolCount ≤ s

mutual

/-- The normaliser, `Expander._expand` in `expression.ts`, with the work
stack turned into recursion (same evaluation order) and a fuel parameter.

Faithful points of the source:
* a `SYMBOL` with an own-value expands the own-value **without** setting the
  `changed` flag;
* the `LAMBDA` case rebuilds the body only when the (global) changed flag is
  set after expanding the body, else returns the original node;
* `LEVEL_SUCC`/`LEVEL_MAX` fold closed levels and set `changed`. -/
def expandE (ctx : SymbolRegistry) (temps : List SymbolEntry) :
    Nat → Bool → Expression → Option (Expression × Bool)
  | 0, _, _ => none
  | fuel + 1, changed, e =>
    match e with
    | .sym s =>
      match getSymbolEntryT ctx temps s with
      | none => none
      | some entry =>
        match entry.ownValue with
        | some v => expandE ctx temps fuel changed v
        | none => some (.sym s, changed)
    | .call fn args => expandCallE ctx temps fuel changed fn args
    | .lam arg body =>
      match expandE ctx temps fuel changed body with
      | none => none
      | some (b, c) => if c then some (.lam arg b, c) else some (.lam arg body, c)
    | .fnType inputType outputType arg =>
      match expandE ctx temps fuel changed inputType with
      | none => none
      | some (i, c1) =>
        match expandE ctx temps fuel c1 outputType with
        | none => none
        | some (o, c2) => some (.fnType i o arg, c2)
    | .universe subscript =>
      match expandE ctx temps fuel changed subscript with
      | none => none
      | some (s, c) => some (.universe s, c)
    | .levelSucc inner =>
      match expandE ctx temps fuel changed inner with
      | none => none
      | some (v, c) =>
        match v with
        | .level n => some (.level (n + 1), true)
        | v => some (.levelSucc v, c)
    | .levelMax lhs rhs =>
      match expandE ctx temps fuel changed lhs with
      | none => none
      | some (l, c1) =>
        match expandE ctx temps fuel c1 rhs with
        | none => none
        | some (r, c2) =>
          match l, r with
          | .level a, .level b => some (.level (max a b), true)
          | l, r => some (.levelMax l r, c2)
    | .pat v => some (.pat v, changed)
    | .levelType => some (.levelType, changed)
    | .level n => some (.level n, changed)
    | .placeholder => some (.placeholder, changed)

/-- `Expander._expandCall` in `expression.ts`.

For a one-argument call: expand the head and the argument; a `LAMBDA` head
is passed **whole** to `replaceOneSymbol` (so β-reduction keeps the lambda
wrapper), a `CALL` head is flattened, anything else rebuilds the call; then
rewrite rules of a symbol head are tried in order, the first match
substituting and re-expanding.

The multi-argument branch of the source builds a continuation whose result
it drops (`self._expandCall(...)` is called for its value, which is
discarded), leaving the expander's stack unbalanced so the final
`assert(stack.length === 1)` throws; that path is modelled as the crash
outcome `none`. -/
def expandCallE (ctx : SymbolRegistry) (temps : List SymbolEntry) :
    Nat → Bool → Expression → List Expression → Option (Expression × Bool)
  | 0, _, _, _ => none
  | fuel + 1, changed, fn, args =>
    match args with
    | [arg0] =>
      match expandE ctx temps fuel changed fn with
      | none => none
      | some (f, c1) =>
        match expandE ctx temps fuel c1 arg0 with
        | none => none
        | some (a, c2) =>
          let rc : Expression × Bool :=
            match f with
            | .lam larg body => (replaceOneSymbol (.lam larg body) larg a, true)
            | .call ffn fargs => (.call ffn (fargs ++ [a]), c2)
            | f => (.call f [a], c2)
          match rc.1 with
          | .call (.sym hs) hargs =>
            match getSymbolEntryT ctx temps hs with
            | none => none
            | some entry =>
              match entry.downValue with
              | some rules => tryRulesE ctx temps fuel rc.2 (.call (.sym hs) hargs) rules
              | none => some (.call (.sym hs) hargs, rc.2)
          | r => some (r, rc.2)
    | _ => none

/-- The first-match rewrite-rule loop inside `Expander._expandCall`. -/
def tryRulesE (ctx : SymbolRegistry) (temps : List SymbolEntry) :
    Nat → Bool → Expression → List ExpressionRule → Option (Expression × Bool)
  | 0, _, _, _ => none
  | _ + 1, changed, result, [] => some (result, changed)
  | fuel + 1, changed, result, rule :: rest =>
    match matchPattern (fuel + 1) result rule.lhs with
    | .matched m => expandE ctx temps fuel true (replaceSymbols rule.rhs m)
    | .failed => tryRulesE ctx temps fuel changed result rest
    | _ => none

end

/-- `Expander.expand` / `ConstraintSolver.expand`: a fresh expander run with
the changed flag cleared. -/
def expandTop (ctx : SymbolRegistry) (temps : List SymbolEntry) (fuel : Nat)
    (e : Expression) : Option (Expression × Bool) :=
  expandE ctx temps fuel false e

/-- Constraint kinds of `solver.ts` (current version): TYPE, FN, EQUAL and
FN_TYPE_EQUAL. -/
inductive Constraint where
  | type (expr type : Expression)
  | fn (expr : Expression) (args : List Expression) (outputType : Expression)
  | equal (expr1 expr2 : Expression)
  | fnTypeEqual (fnType : Expression) (args : List Expression) (outputType : Expression)
  deriving Repr

/-- The diagnostics of `solver.ts` (current version). -/
inductive Diag where
  | untypedExpression (expr : Expression)
  | unequal (expr1 expr2 : Expression)
  | unmetSubscriptConstraint (smaller larger : Nat)
  | unresolvedConstraint (con : Constraint)
  | uninferedVar (symbols : List Symbol)
  | fnTypeExpected (type : Expression)
  deriving Repr

/-- The mutable state of a `ConstraintSolver`: the permanent registry it
wraps, the temp-symbol array of its `TempSymbolRegistry`, and the
diagnostics / constraint queue / unlocked and affected symbol sets
(JS `Set`s keep insertion order, so they become duplicate-free lists). -/
structure SolverSt where
  context : SymbolRegistry
  temps : List SymbolEntry := []
  diagnostics : List Diag := []
  constraints : List Constraint := []
  unlockedSymbols : List Symbol := []
  affectedSymbols : List Symbol := []
  deriving Repr

namespace SolverSt

/-- Entry lookup through the solver's `TempSymbolRegistry`. -/
def getEntry (st : SolverSt) (s : Symbol) : Option SymbolEntry :=
  getSymbolEntryT st.context st.temps s

/-- `isTempSymbol` through the solver's registry. -/
def isTemp (st : SolverSt) (s : Symbol) : Bool :=
  isTempSymbol st.context s

/-- Write back a (possibly permanent, possibly temp) entry. -/
def setEntry (st : SolverSt) (s : Symbol) (e : SymbolEntry) : SolverSt :=
  if s < st.context.getSymbolCount then { st with context := st.context.setEntry s e }
  else { st with temps := listSet st.temps (s - st.context.getSymbolCount) e }

/-- `TempSymbolRegistry.createTempSymbol`. -/
def createTempSymbol (st : SolverSt) (isLocal : Bool) (type : Option Expression) :
    Symbol × SolverSt :=
  let ret := st.temps.length + st.context.getSymbolCount
  (ret, { st with temps := st.temps ++ [{ name := "", parent := none, isLocal := isLocal,
                                          type := type }] })

/-- Append to `diagnostics`. -/
def pushDiag (st : SolverSt) (d : Diag) : SolverSt :=
  { st with diagnostics := st.diagnostics ++ [d] }

/-- `Set.add` on `affectedSymbols` (insertion order, no duplicates). -/
def addAffected (st : SolverSt) (s : Symbol) : SolverSt :=
  if s ∈ st.affectedSymbols then st
  else { st with affectedSymbols := st.affectedSymbols ++ [s] }

/-- `unlockSymbol`. -/
def unlockSymbol (st : SolverSt) (s : Symbol) : SolverSt :=
  if s ∈ st.unlockedSymbols then st
  else { st with unlockedSymbols := st.unlockedSymbols ++ [s] }

/-- `addTypeConstraint`. -/
def addTypeConstraint (st : SolverSt) (expr type : Expression) : SolverSt :=
  { st with constraints := st.constraints ++ [.type expr type] }

/-- `addEqualConstraint`. -/
def addEqualConstraint (st : SolverSt) (expr1 expr2 : Expression) : SolverSt :=
  { st with constraints := st.constraints ++ [.equal expr1 expr2] }

/-- `addFnTypeConstraint`. -/
def addFnTypeConstraint (st : SolverSt) (expr : Expression) (args : List Expression)
    (outputType : Expression) : SolverSt :=
  { st with constraints := st.constraints ++ [.fn expr args outputType] }

/-- `addFnTypeEqualConstraint`. -/
def addFnTypeEqualConstraint (st : SolverSt) (fnType : Expression)
    (args : List Expression) (outputType : Expression) : SolverSt :=
  { st with constraints := st.constraints ++ [.fnTypeEqual fnType args outputType] }

/-- Requeue a constraint unchanged (`this.constraints.push(con)`). -/
def requeue (st : SolverSt) (con : Constraint) : SolverSt :=
  { st with constraints := st.constraints ++ [con] }

/-- `addTypeTypeConstraint`: a fresh level meta and `type : UNIVERSE(meta)`. -/
def addTypeTypeConstraint (st : SolverSt) (type : Expression) : SolverSt :=
  let (sub, st) := st.createTempSymbol false (some .levelType)
  st.addTypeConstraint type (.universe (.sym sub))

/-- `createTypeSymbol`: a fresh level meta and a fresh meta of type
`UNIVERSE(level meta)`. -/
def createTypeSymbol (st : SolverSt) (isLocal : Bool) : Symbol × SolverSt :=
  let (level, st) := st.createTempSymbol false (some .levelType)
  st.createTempSymbol isLocal (some (.universe (.sym level)))

end SolverSt

mutual

/-- SYMBOL nodes occurring in an expression (`visitExpression`-style
traversal; binder `arg` fields are not SYMBOL nodes). -/
def symbolsOf : Expression → List Symbol
  | .sym s => [s]
  | .call fn args => symbolsOf fn ++ symbolsOfList args
  | .lam _ body => symbolsOf body
  | .fnType i o _ => symbolsOf i ++ symbolsOf o
  | .universe s => symbolsOf s
  | .levelSucc e => symbolsOf e
  | .levelMax l r => symbolsOf l ++ symbolsOf r
  | .pat _ => []
  | .placeholder => []
  | .levelType => []
  | .level _ => []

/-- `symbolsOf` over a list of expressions. -/
def symbolsOfList : List Expression → List Symbol
  | [] => []
  | e :: rest => symbolsOf e ++ symbolsOfList rest

end

/-- Worklist of the own-value occurs check: `true` means no cycle found. -/
def cycleGo (st : SolverSt) (s : Symbol) :
    Nat → List Symbol → List Symbol → Bool
  | 0, _, _ => false
  | _ + 1, _, [] => true
  | fuel + 1, visited, u :: rest =>
    if u = s then false
    else if u ∈ visited then cycleGo st s fuel visited rest
    else
      match st.getEntry u with
      | some entry =>
        match entry.ownValue with
        | some w => cycleGo st s fuel (u :: visited) (symbolsOf w ++ rest)
        | none => cycleGo st s fuel (u :: visited) rest
      | none => cycleGo st s fuel (u :: visited) rest

/-- Modelled from the spec: `checkOwnValueCycle` is imported by `solver.ts`
from `expression.ts`, but no definition for it appears anywhere under
`src/`.  Per §3 invariant 5 and §9 "Occurs check" of the spec, assigning
`v` to `s` requires that `s` not appear transitively inside `v` through
own-values, implemented by traversing `v` with a visited set of symbols.
Returns `true` when the assignment is cycle-free. -/
def checkOwnValueCycle (fuel : Nat) (st : SolverSt) (s : Symbol) (v : Expression) : Bool :=
  cycleGo st s fuel [] (symbolsOf v)

namespace SolverSt

/-- `ConstraintSolver.trySetOwnValue` in `solver.ts` (current version).

Faithful points of the source:
* an existing own-value fails;
* a non-temp symbol fails (the unlocked-symbol alternative present in the
  previous revision of the file was dropped);
* a cycle pushes an `UNEQUAL` diagnostic and fails;
* on success the own-value is written and, when a type is known,
  `value : type` is posted;
* the final `if (!isTempSymbol(symbol)) affectedSymbols.add(symbol)` is
  dead code (kept here for fidelity). -/
def trySetOwnValue (C : Nat) (st : SolverSt) (symbol : Symbol) (value : Expression) :
    Option (Bool × SolverSt) :=
  match st.getEntry symbol with
  | none => none
  | some entry =>
    if entry.ownValue.isSome then some (false, st)
    else if ¬ st.isTemp symbol then some (false, st)
    else if ¬ checkOwnValueCycle C st symbol value then
      some (false, st.pushDiag (.unequal (.sym symbol) value))
    else
      let st := st.setEntry symbol { entry with ownValue := some value }
      let st :=
        match entry.type with
        | some t => st.addTypeConstraint value t
        | none => st
      let st := if ¬ st.isTemp symbol then st.addAffected symbol else st
      some (true, st)

/-- `ConstraintSolver.matchLevelSucc` in `solver.ts` (current version).
The initial "swap" is the source's faithful transcription: when `expr2` is
a `LEVEL_SUCC` and `expr1` is not, the code assigns `expr2 = expr1` before
`expr1 = tmp`, so both sides become `expr1` and the branch then fails to
fire. -/
def matchLevelSucc (st : SolverSt) (expr1 expr2 : Expression) : Bool × SolverSt :=
  let p :=
    match expr2, expr1 with
    | .levelSucc _, .levelSucc _ => (expr1, expr2)
    | .levelSucc _, _ => (expr1, expr1)
    | _, _ => (expr1, expr2)
  match p.1, p.2 with
  | .levelSucc x, .levelSucc y => (true, st.addEqualConstraint x y)
  | .levelSucc x, .level n =>
    if 0 < n then (true, st.addEqualConstraint x (.level (n - 1)))
    else (true, st.pushDiag (.unequal (.levelSucc x) (.level n)))
  | _, _ => (false, st)

/-- The tail of `evaluateEqualConstraint` after the symbol branch: the
LAMBDA, FN_TYPE, UNIVERSE, LEVEL_TYPE, LEVEL, `matchLevelSucc` and (in the
stuck pass only) CALL-vs-CALL cases, then the changed-repost / requeue
fall-through.  `e1 e2` are the expanded and oriented sides, `c1 c2` their
expansion-changed flags, and `orig1 orig2` the constraint's original
expressions (requeued verbatim when nothing changed). -/
def evalEqualRest (st : SolverSt) (e1 e2 : Expression) (c1 c2 : Bool)
    (previouslyNoChange : Bool) (orig1 orig2 : Expression) : Bool × SolverSt :=
  match e1, e2 with
  | .lam arg1 body1, .lam arg2 body2 =>
    let (t1, st) := st.createTempSymbol true none
    let (t2, st) := st.createTempSymbol true none
    (true, st.addEqualConstraint
      (replaceOneSymbol body1 arg1 (.sym t1))
      (replaceOneSymbol body2 arg2 (.sym t2)))
  | .fnType in1 out1 arg1, .fnType in2 out2 arg2 =>
    let st := st.addEqualConstraint in1 in2
    let (o1, st) :=
      match arg1 with
      | some a =>
        let (t, st) := st.createTempSymbol true (some in1)
        (replaceOneSymbol out1 a (.sym t), st)
      | none => (out1, st)
    let (o2, st) :=
      match arg2 with
      | some a =>
        let (t, st) := st.createTempSymbol true (some in2)
        (replaceOneSymbol out2 a (.sym t), st)
      | none => (out2, st)
    (true, st.addEqualConstraint o1 o2)
  | .universe s1, .universe s2 => (true, st.addEqualConstraint s1 s2)
  | .levelType, .levelType => (true, st)
  | .level v1, .level v2 =>
    if v1 ≠ v2 then (true, st.pushDiag (.unequal (.level v1) (.level v2)))
    else (true, st)
  | e1, e2 =>
    match st.matchLevelSucc e1 e2 with
    | (true, st) => (true, st)
    | (false, st) =>
      match previouslyNoChange, e1, e2 with
      | true, .call fn1 args1, .call fn2 args2 =>
        if args1.length ≠ args2.length then
          (false, st.pushDiag (.unequal (.call fn1 args1) (.call fn2 args2)))
        else
          let st := st.addEqualConstraint fn1 fn2
          (true, (List.zip args1 args2).foldl
            (fun st p => st.addEqualConstraint p.1 p.2) st)
      | _, e1, e2 =>
        if c1 || c2 then (true, st.addEqualConstraint e1 e2)
        else (false, st.requeue (.equal orig1 orig2))

/-- `ConstraintSolver.evaluateEqualConstraint` in `solver.ts` (current
version): expand both sides, orient a symbol to the left (preferring a temp
symbol when both sides are symbols), try the own-value assignment, then the
structural cases of `evalEqualRest`. -/
def evaluateEqualConstraint (F C : Nat) (st : SolverSt) (expr1 expr2 : Expression)
    (previouslyNoChange : Bool) : Option (Bool × SolverSt) :=
  match expandTop st.context st.temps F expr1 with
  | none => none
  | some (a1, c1) =>
    match expandTop st.context st.temps F expr2 with
    | none => none
    | some (a2, c2) =>
      let p :=
        match a1, a2 with
        | .sym s, b => (Expression.sym s, b)
        | a, .sym s => (Expression.sym s, a)
        | a, b => (a, b)
      let q :=
        match p.1, p.2 with
        | .sym u, .sym v =>
          if ¬ st.isTemp u ∧ st.isTemp v then (Expression.sym v, Expression.sym u)
          else (Expression.sym u, Expression.sym v)
        | a, b => (a, b)
      match q.1 with
      | .sym u =>
        match q.2 with
        | .sym v =>
          if u = v then some (true, st)
          else
            match st.trySetOwnValue C u (.sym v) with
            | none => none
            | some (true, st) => some (true, st)
            | some (false, st) =>
              some (evalEqualRest st (.sym u) (.sym v) c1 c2 previouslyNoChange expr1 expr2)
        | e2 =>
          match st.trySetOwnValue C u e2 with
          | none => none
          | some (true, st) => some (true, st)
          | some (false, st) =>
            some (evalEqualRest st (.sym u) e2 c1 c2 previouslyNoChange expr1 expr2)
      | e1 => some (evalEqualRest st e1 q.2 c1 c2 previouslyNoChange expr1 expr2)

/-- `ConstraintSolver.makeInferedFnType`: wrap the output type in one
non-dependent Π per argument (processed last-to-first), each input type a
fresh meta of a fresh universe, posting `arg : inputMeta` on the way. -/
def makeInferedFnType (st : SolverSt) (args : List Expression)
    (outputType : Expression) : Expression × SolverSt :=
  args.reverse.foldl
    (fun p arg =>
      let (ret, st) := p
      let (sub, st) := st.createTempSymbol false none
      let (inputType, st) := st.createTempSymbol false (some (.universe (.sym sub)))
      let st := st.addTypeConstraint arg (.sym inputType)
      (.fnType (.sym inputType) ret none, st))
    (outputType, st)

end SolverSt

/-- A TYPE or FN constraint, the argument of `evaluateTypeConstraint`. -/
inductive TypeCon where
  | normal (expr : Expression) (type : Expression)
  | fnCon (expr : Expression) (args : List Expression) (outputType : Expression)
  deriving Repr

namespace TypeCon

/-- The subject expression of a TYPE/FN constraint. -/
def expr : TypeCon → Expression
  | .normal e _ => e
  | .fnCon e _ _ => e

end TypeCon

namespace SolverSt

/-- `ConstraintSolver.evaluateTypeConstraint` in `solver.ts` (current
version), dispatching on the subject's kind.  Always returns `true`
(progress) except for the `default: panic()` case, modelled as `none`. -/
def evaluateTypeConstraint (st : SolverSt) (con : TypeCon) : Option (Bool × SolverSt) :=
  match con.expr with
  | .sym s =>
    match st.getEntry s with
    | none => none
    | some entry =>
      match entry.type with
      | some symbolType =>
        match con with
        | .normal _ t => some (true, st.addEqualConstraint symbolType t)
        | .fnCon _ args out => some (true, st.addFnTypeEqualConstraint symbolType args out)
      | none =>
        if st.isTemp s || s ∈ st.unlockedSymbols then
          let st := st.addAffected s
          let (newType, st) :=
            match con with
            | .normal _ t => (t, st)
            | .fnCon _ args out => st.makeInferedFnType args out
          let st := st.setEntry s { entry with type := some newType }
          let st :=
            match entry.ownValue with
            | some ov => st.addTypeConstraint ov newType
            | none => st
          some (true, st)
        else some (true, st.pushDiag (.untypedExpression (.sym s)))
  | .call fn args =>
    match con with
    | .normal _ t => some (true, st.addFnTypeConstraint fn args t)
    | .fnCon _ cargs out => some (true, st.addFnTypeConstraint fn (cargs ++ args) out)
  | .lam arg body =>
    match con with
    | .normal _ t =>
      let (inputType, st) := st.createTempSymbol false none
      let (outputType, st) := st.createTempSymbol false none
      let (argS, st) := st.createTempSymbol true (some (.sym inputType))
      let st := st.addTypeTypeConstraint (.sym inputType)
      let st := st.addTypeTypeConstraint (.sym outputType)
      let st := st.addTypeConstraint (replaceOneSymbol body arg (.sym argS)) (.sym outputType)
      some (true, st.addEqualConstraint
        (.fnType (.sym inputType) (.sym outputType) (some argS)) t)
    | .fnCon _ cargs out =>
      match cargs with
      | [] => none
      | a0 :: rest =>
        if rest.isEmpty then
          some (true, st.addTypeConstraint (replaceOneSymbol body arg a0) out)
        else
          some (true, st.addFnTypeConstraint (replaceOneSymbol body arg a0) rest out)
  | .fnType inputType outputType arg =>
    let (inLevel, st) := st.createTempSymbol false (some .levelType)
    let (outLevel, st) := st.createTempSymbol false (some .levelType)
    let st := st.addTypeConstraint inputType (.universe (.sym inLevel))
    let (outputType, st) :=
      match arg with
      | some a =>
        let (argS, st) := st.createTempSymbol true (some inputType)
        (replaceOneSymbol outputType a (.sym argS), st)
      | none => (outputType, st)
    let st := st.addTypeConstraint outputType (.universe (.sym outLevel))
    let type : Expression := .universe (.levelMax (.sym inLevel) (.sym outLevel))
    match con with
    | .normal _ t => some (true, st.addEqualConstraint t type)
    | .fnCon _ _ _ => some (true, st.pushDiag (.fnTypeExpected type))
  | .placeholder => some (true, st)
  | .universe subscript =>
    let type : Expression := .universe (.levelSucc subscript)
    match con with
    | .normal _ t => some (true, st.addEqualConstraint type t)
    | .fnCon _ _ _ => some (true, st.pushDiag (.fnTypeExpected type))
  | .level _ =>
    match con with
    | .normal _ t => some (true, st.addEqualConstraint t .levelType)
    | .fnCon _ _ _ => some (true, st.pushDiag (.fnTypeExpected .levelType))
  | .levelSucc _ =>
    match con with
    | .normal _ t => some (true, st.addEqualConstraint t .levelType)
    | .fnCon _ _ _ => some (true, st.pushDiag (.fnTypeExpected .levelType))
  | .levelMax _ _ =>
    match con with
    | .normal _ t => some (true, st.addEqualConstraint t .levelType)
    | .fnCon _ _ _ => some (true, st.pushDiag (.fnTypeExpected .levelType))
  | .levelType =>
    let type : Expression := .universe (.level 0)
    match con with
    | .normal _ t => some (true, st.addEqualConstraint type t)
    | .fnCon _ _ _ => some (true, st.pushDiag (.fnTypeExpected type))
  | .pat _ => none

/-- `ConstraintSolver.evaluateFnTypeEqualConstraint` in `solver.ts`
(current version). -/
def evaluateFnTypeEqualConstraint (F : Nat) (st : SolverSt) (fnType : Expression)
    (args : List Expression) (outputType : Expression) : Option (Bool × SolverSt) :=
  match expandTop st.context st.temps F fnType with
  | none => none
  | some (fn, changed) =>
    match fn with
    | .fnType inT outT argO =>
      match args with
      | [] => none
      | a0 :: rest =>
        let st := st.addTypeConstraint a0 inT
        let outT :=
          match argO with
          | some a => replaceOneSymbol outT a a0
          | none => outT
        if rest.isEmpty then some (true, st.addEqualConstraint outputType outT)
        else some (true, st.addFnTypeEqualConstraint outT rest outputType)
    | _ =>
      if changed then some (true, st.addFnTypeEqualConstraint fnType args outputType)
      else some (false, st.requeue (.fnTypeEqual fnType args outputType))

/-- `ConstraintSolver.evaluateConstraint`: dispatch on the constraint kind. -/
def evaluateConstraint (F C : Nat) (st : SolverSt) (con : Constraint)
    (previouslyNoChange : Bool) : Option (Bool × SolverSt) :=
  match con with
  | .type e t => st.evaluateTypeConstraint (.normal e t)
  | .fn e args out => st.evaluateTypeConstraint (.fnCon e args out)
  | .equal e1 e2 => evaluateEqualConstraint F C st e1 e2 previouslyNoChange
  | .fnTypeEqual ft args out => evaluateFnTypeEqualConstraint F st ft args out

/-- Evaluate a batch of constraints in order, or-ing their progress flags
(the loop body of `ConstraintSolver.iterate`). -/
def evalBatch (F C : Nat) (previouslyNoChange : Bool) :
    SolverSt → List Constraint → Bool → Option (Bool × SolverSt)
  | st, [], changed => some (changed, st)
  | st, con :: rest, changed =>
    match evaluateConstraint F C st con previouslyNoChange with
    | none => none
    | some (c, st) => evalBatch F C previouslyNoChange st rest (changed || c)

/-- `ConstraintSolver.iterate`: snapshot the queue, clear it, evaluate
every constraint, report whether any evaluation made progress. -/
def iterate (F C : Nat) (st : SolverSt) (previouslyNoChange : Bool) :
    Option (Bool × SolverSt) :=
  let cs := st.constraints
  evalBatch F C previouslyNoChange { st with constraints := [] } cs false

end SolverSt

/-- One pass of the solver driver: whether it was the stuck pass
(`previouslyNoChange = true`) and whether it reported progress. -/
structure PassRec where
  stuck : Bool
  changed : Bool
  deriving Repr, DecidableEq

/-- The `while` loop of `ConstraintSolver.run` in `solver.ts` (current
version), with a fuel bound standing in for the unbounded JS loop and a
trace of the passes executed.

Faithful point of the source: `run` declares `let iterations = 0` and
compares `iterations > maxIterations`, but the only `iterations++` sits
inside `logDump`'s lazy message closure and increments that function's own
parameter copy, so the variable compared here never changes; the model
therefore passes `iterations` through the recursion unmodified. -/
def runLoop (F C : Nat) : Nat → SolverSt → Nat → Nat → Option (SolverSt × List PassRec)
  | 0, _, _, _ => none
  | fuel + 1, st, iterations, maxIterations =>
    if maxIterations < iterations then some (st, [])
    else
      match SolverSt.iterate F C st false with
      | none => none
      | some (c1, st1) =>
        if c1 then
          match runLoop F C fuel st1 iterations maxIterations with
          | none => none
          | some (st', tr) => some (st', ⟨false, true⟩ :: tr)
        else
          match SolverSt.iterate F C st1 true with
          | none => none
          | some (c2, st2) =>
            if c2 then
              match runLoop F C fuel st2 iterations maxIterations with
              | none => none
              | some (st', tr) => some (st', ⟨false, false⟩ :: ⟨true, true⟩ :: tr)
            else some (st2, [⟨false, false⟩, ⟨true, false⟩])

/-- Final-check step 1: default the own-value of a `LEVEL_TYPE`-typed
entry without one to `LEVEL 0`. -/
def defaultLevelEntry (e : SymbolEntry) : SymbolEntry :=
  match e.type, e.ownValue with
  | some .levelType, none => { e with ownValue := some (.level 0) }
  | _, _ => e

/-- Final-check step 3a: the `tempReps` map, binding each temp symbol with
an own-value to that own-value's expansion, in temp order. -/
def tempRepsGo (F : Nat) (st : SolverSt) :
    List SymbolEntry → Nat → Subst → Option Subst
  | [], _, acc => some acc
  | e :: rest, i, acc =>
    match e.ownValue with
    | some v =>
      match expandTop st.context st.temps F v with
      | none => none
      | some (v', _) =>
        tempRepsGo F st rest (i + 1) (acc ++ [(st.context.getSymbolCount + i, v')])
    | none => tempRepsGo F st rest (i + 1) acc

/-- Final-check step 3b: the non-local temp symbols without an own-value,
in temp order. -/
def uninfGo (count : Nat) : List SymbolEntry → Nat → List Symbol
  | [], _ => []
  | e :: rest, i =>
    if e.ownValue.isNone && !e.isLocal then (count + i) :: uninfGo count rest (i + 1)
    else uninfGo count rest (i + 1)

/-- The non-local temp symbols without an own-value of a solver state. -/
def uninferedOf (st : SolverSt) : List Symbol :=
  uninfGo st.context.getSymbolCount st.temps 0

/-- Modelled from the spec: `complement` is imported by `solver.ts` from
`util.ts`, but `src/util.ts` does not define it.  Per final-check item 4 of
§4.5 and the rewrite-rule hygiene note of §9, the substitution applied to a
rule's sides must not touch the rule's own pattern symbols:
`complement(map, set)` restricts `map` to the keys outside `set`. -/
def complement (m : Subst) (patterns : List Symbol) : Subst :=
  m.filter (fun p => p.1 ∉ patterns)

/-- The per-entry substitution of final-check step 4: `tempReps` applied to
the type, own-value and rewrite rules (rules with the rule's own pattern
symbols removed from the map first). -/
def substEntry (reps : Subst) (e : SymbolEntry) : SymbolEntry :=
  { e with
    type := e.type.map (fun t => replaceSymbols t reps)
    ownValue := e.ownValue.map (fun o => replaceSymbols o reps)
    downValue := e.downValue.map (fun rules => rules.map (fun r =>
      let rs := complement reps r.patterns
      { patterns := r.patterns, lhs := replaceSymbols r.lhs rs,
        rhs := replaceSymbols r.rhs rs })) }

/-- Final-check step 4: substitute `tempReps` into every affected symbol's
entry, in insertion order. -/
def substAffected (reps : Subst) : SolverSt → List Symbol → Option SolverSt
  | st, [] => some st
  | st, s :: rest =>
    match st.getEntry s with
    | none => none
    | some e => substAffected reps (st.setEntry s (substEntry reps e)) rest

/-- Final-check steps 1 and 2 as a state: temps defaulted
(`defaultLevelEntry`) and one UNRESOLVED_CONSTRAINT diagnostic appended per
queued constraint. -/
def fcReported (st : SolverSt) : SolverSt :=
  { st with
    temps := st.temps.map defaultLevelEntry
    diagnostics := st.diagnostics ++ st.constraints.map Diag.unresolvedConstraint }

/-- `ConstraintSolver.finalCheck` in `solver.ts` (current version):
1. default undetermined `LEVEL_TYPE` temps to `LEVEL 0`;
2. report every queued constraint as UNRESOLVED_CONSTRAINT;
3. collect `tempReps` (expanded own-values) and the un-inferred non-local
   temps, reporting the latter in a single UNINFERED_VAR diagnostic;
4. substitute `tempReps` into every affected symbol's entry. -/
def finalCheck (F : Nat) (st : SolverSt) : Option SolverSt :=
  match tempRepsGo F (fcReported st) (fcReported st).temps 0 [] with
  | none => none
  | some reps =>
    let uninf := uninferedOf (fcReported st)
    let st3 :=
      if uninf.isEmpty then fcReported st
      else (fcReported st).pushDiag (.uninferedVar uninf)
    substAffected reps st3 st3.affectedSymbols

/-- `ConstraintSolver.run` in `solver.ts` (current version): clear the
diagnostics, run the iteration loop, run the final check, and return the
diagnostics.  The pass trace is kept for reasoning about the driver. -/
def solverRun (F C fuel : Nat) (st : SolverSt) (maxIterations : Nat) :
    Option (List Diag × SolverSt × List PassRec) :=
  let st0 := { st with diagnostics := [] }
  match runLoop F C fuel st0 0 maxIterations with
  | none => none
  | some (st1, tr) =>
    match finalCheck F st1 with
    | none => none
    | some st2 => some (st2.diagnostics, st2, tr)

/-- The parsed surface syntax consumed by `analyse` (`Ast` in `parser.ts`);
source ranges dropped, identifiers flattened to their names. -/
inductive Ast where
  | identifier (name : String)
  | astSymbol (path : List String)
  | emptySymbol
  | lambda (name : String) (body : Ast)
  | fnTypeA (inputType outputType : Ast) (arg : Option String)
  | callA (fn : Ast) (args : List Ast)
  | patternA (name : String)
  | typeUniverse (subscript : Ast)
  | typeUniverseSubscript (value : Nat)

/-- `AstDeclaration` in `parser.ts`. -/
structure AstDeclaration where
  lhs : Ast
  type : Option Ast := none
  rhs : Option Ast := none
  checkOnly : Bool := false

/-- `AstFile` in `parser.ts` (the `assignments` field is never read by
`analyse.loadFile`, so it is omitted). -/
structure AstFile where
  declarations : List AstDeclaration

/-- `ExpressionDeclaration` in `parser.ts`. -/
structure ExpressionDeclaration where
  patterns : List Symbol
  lhs : Expression
  type : Option Expression := none
  rhs : Option Expression := none
  checkOnly : Bool := false

/-- The closure state of `analyse` in `parser.ts`: the constraint solver
(which wraps the shared permanent registry), the `newSymbols` set and the
(parse-stage) diagnostics list. -/
structure AnalyseSt where
  solver : SolverSt
  newSymbols : List Symbol := []
  parseDiags : List String := []

namespace AnalyseSt

/-- The shared permanent registry. -/
def reg (a : AnalyseSt) : SymbolRegistry :=
  a.solver.context

/-- Replace the shared permanent registry. -/
def setReg (a : AnalyseSt) (r : SymbolRegistry) : AnalyseSt :=
  { a with solver := { a.solver with context := r } }

/-- Push an analyse-stage diagnostic. -/
def pushParseDiag (a : AnalyseSt) (msg : String) : AnalyseSt :=
  { a with parseDiags := a.parseDiags ++ [msg] }

/-- `Set.add` on `newSymbols`. -/
def trackNew (a : AnalyseSt) (s : Symbol) : AnalyseSt :=
  if s ∈ a.newSymbols then a else { a with newSymbols := a.newSymbols ++ [s] }

/-- `analyse.addSymbol`: create or look up a child, track and unlock new
symbols, and diagnose redefinition of a symbol not created in this
elaboration.  The inner `none` is the JS `null` return. -/
def addSymbol (a : AnalyseSt) (parent : Symbol) (name : String) :
    Option (Option Symbol × AnalyseSt) :=
  match a.reg.addNewSymbol (some parent) name false with
  | none => none
  | some (symbol, success, r) =>
    let a := a.setReg r
    if success then
      let a := a.trackNew symbol
      some (some symbol, { a with solver := a.solver.unlockSymbol symbol })
    else if symbol ∈ a.newSymbols then some (some symbol, a)
    else some (none, a.pushParseDiag ("cannot redefine symbol " ++ name))

/-- `analyse.getGeneratedSymbol`: a (local-flagged) symbol under the hidden
`generated` parent, tracked when new. -/
def getGeneratedSymbol (a : AnalyseSt) (generated : Symbol) (name : String) :
    Option (Symbol × AnalyseSt) :=
  match a.reg.addNewSymbol (some generated) name true with
  | none => none
  | some (ret, success, r) =>
    let a := a.setReg r
    some (ret, if success then a.trackNew ret else a)

/-- `analyse.prepareSymbol`: declare the target symbol (or dotted chain)
of a declaration's left-hand side.  Any other AST shape returns `null`
without a diagnostic. -/
def prepareSymbol (a : AnalyseSt) (outermost : Symbol) (expr : Ast) :
    Option (Option Symbol × AnalyseSt) :=
  match expr with
  | .identifier name => a.addSymbol outermost name
  | .astSymbol path => prepareSymbolPath a outermost path
  | _ => some (none, a)
where
  /-- The path loop of `prepareSymbol`. -/
  prepareSymbolPath (a : AnalyseSt) (symbol : Symbol) :
      List String → Option (Option Symbol × AnalyseSt)
    | [] => some (some symbol, a)
    | name :: rest =>
      match a.addSymbol symbol name with
      | none => none
      | some (none, a) => some (none, a)
      | some (some s, a) => prepareSymbolPath a s rest

end AnalyseSt

/-- The pure (create-free) part of `SymbolRegistry.getSymbol`: a name
lookup under a parent handle (`none` parent = the root map); the outer
`none` models the crash on an invalid parent handle. -/
def getSymbolPure (r : SymbolRegistry) (parent : Option Symbol) (name : String) :
    Option (Option Symbol) :=
  match parent with
  | some p =>
    match r.entriesById.get? p with
    | none => none
    | some pe => some (lookupN pe.subSymbols name)
  | none => some (lookupN r.entriesByName name)

/-- The backwards scan of `fnArgScope` in `analyse.resolveIdentifier`
(the argument list is already reversed here). -/
def scanArgScope (r : SymbolRegistry) (name : String) :
    List Symbol → Option (Option Symbol)
  | [] => some none
  | s :: rest =>
    match r.getSymbolEntry s with
    | none => none
    | some e => if e.name = name then some (some s) else scanArgScope r name rest

/-- `analyse.resolveIdentifier`: enclosing binder arguments first, then the
declaration's pattern symbols, then the (single) enclosing scope, then the
root scope.  Pure: all lookups use `create = false`. -/
def resolveIdentifier (r : SymbolRegistry) (generated outermost : Symbol)
    (name : String) (fnArgScope : List Symbol) (patternSymbols : Option (List Symbol)) :
    Option (Option Symbol) :=
  match scanArgScope r name fnArgScope.reverse with
  | none => none
  | some (some s) => some (some s)
  | some none =>
    let patHit :=
      match patternSymbols with
      | some pats =>
        match getSymbolPure r (some generated) name with
        | some (some ps) => if ps ∈ pats then some ps else none
        | _ => none
      | none => none
    match patHit with
    | some ps => some (some ps)
    | none =>
      match getSymbolPure r (some outermost) name with
      | none => none
      | some (some s) => some (some s)
      | some none => getSymbolPure r none name

/-- The member loop of `analyse.resolveSymbol`: a missing member pushes a
diagnostic but the loop continues with a `null` parent (which then looks
names up in the root map, faithfully to the JS `null` handling). -/
def resolveSymbolRest (a : AnalyseSt) (cur : Option Symbol) :
    List String → Option (Option Symbol × AnalyseSt)
  | [] => some (cur, a)
  | name :: rest =>
    match getSymbolPure a.reg cur name with
    | none => none
    | some s =>
      let a := if s.isNone then a.pushParseDiag ("undefined member " ++ name) else a
      resolveSymbolRest a s rest

/-- `analyse.resolveSymbol`: resolve a dotted path; note the head is
resolved with no binder scope and no pattern set. -/
def resolveSymbol (a : AnalyseSt) (generated outermost : Symbol) (path : List String) :
    Option (Option Symbol × AnalyseSt) :=
  match path with
  | [] => none
  | first :: rest =>
    match resolveIdentifier a.reg generated outermost first [] none with
    | none => none
    | some none => some (none, a.pushParseDiag ("undefined identifier " ++ first))
    | some (some s) => resolveSymbolRest a (some s) rest

mutual

/-- `analyse.convertExpression` in `parser.ts`, over one AST node.
Returns the updated state, the updated pattern-symbol set, and either the
converted expression or the JS `null` (which aborts the whole conversion
after pushing a diagnostic).

Faithful points of the source:
* a dependent `FN_TYPE` pushes its binder onto `fnArgScope` before
  converting **both** the input and the output type;
* pattern holes are materialised under the hidden `generated` parent and
  added to the declaration's pattern set;
* an unresolvable identifier aborts with `undefined identifier`. -/
def convertAst (a : AnalyseSt) (generated outermost : Symbol)
    (pats : Option (List Symbol)) (fnArgScope : List Symbol) :
    Ast → Option (AnalyseSt × Option (List Symbol) × Option Expression)
  | .callA fn args =>
    match convertAst a generated outermost pats fnArgScope fn with
    | none => none
    | some (a, pats, none) => some (a, pats, none)
    | some (a, pats, some fnE) =>
      match convertAstList a generated outermost pats fnArgScope args with
      | none => none
      | some (a, pats, none) => some (a, pats, none)
      | some (a, pats, some argsE) => some (a, pats, some (.call fnE argsE))
  | .patternA name =>
    match a.getGeneratedSymbol generated name with
    | none => none
    | some (symbol, a) =>
      let pats := pats.map (fun l => if symbol ∈ l then l else l ++ [symbol])
      some (a, pats, some (.sym symbol))
  | .emptySymbol => some (a, pats, some (.sym outermost))
  | .identifier name =>
    match resolveIdentifier a.reg generated outermost name fnArgScope pats with
    | none => none
    | some (some s) => some (a, pats, some (.sym s))
    | some none =>
      some (a.pushParseDiag ("undefined identifier " ++ name), pats, none)
  | .fnTypeA inputType outputType arg =>
    match arg with
    | some argName =>
      match a.getGeneratedSymbol generated argName with
      | none => none
      | some (symbol, a) =>
        match convertAst a generated outermost pats (fnArgScope ++ [symbol]) inputType with
        | none => none
        | some (a, pats, none) => some (a, pats, none)
        | some (a, pats, some inE) =>
          match convertAst a generated outermost pats (fnArgScope ++ [symbol]) outputType with
          | none => none
          | some (a, pats, none) => some (a, pats, none)
          | some (a, pats, some outE) =>
            some (a, pats, some (.fnType inE outE (some symbol)))
    | none =>
      match convertAst a generated outermost pats fnArgScope inputType with
      | none => none
      | some (a, pats, none) => some (a, pats, none)
      | some (a, pats, some inE) =>
        match convertAst a generated outermost pats fnArgScope outputType with
        | none => none
        | some (a, pats, none) => some (a, pats, none)
        | some (a, pats, some outE) => some (a, pats, some (.fnType inE outE none))
  | .lambda name body =>
    match a.getGeneratedSymbol generated name with
    | none => none
    | some (symbol, a) =>
      match convertAst a generated outermost pats (fnArgScope ++ [symbol]) body with
      | none => none
      | some (a, pats, none) => some (a, pats, none)
      | some (a, pats, some bodyE) => some (a, pats, some (.lam symbol bodyE))
  | .astSymbol path =>
    match resolveSymbol a generated outermost path with
    | none => none
    | some (none, a) => some (a, pats, none)
    | some (some s, a) => some (a, pats, some (.sym s))
  | .typeUniverse subscript =>
    match convertAst a generated outermost pats fnArgScope subscript with
    | none => none
    | some (a, pats, none) => some (a, pats, none)
    | some (a, pats, some subE) => some (a, pats, some (.universe subE))
  | .typeUniverseSubscript v => some (a, pats, some (.level v))

/-- `convertAst` over a call's argument list, in order. -/
def convertAstList (a : AnalyseSt) (generated outermost : Symbol)
    (pats : Option (List Symbol)) (fnArgScope : List Symbol) :
    List Ast → Option (AnalyseSt × Option (List Symbol) × Option (List Expression))
  | [] => some (a, pats, some [])
  | ast :: rest =>
    match convertAst a generated outermost pats fnArgScope ast with
    | none => none
    | some (a, pats, none) => some (a, pats, none)
    | some (a, pats, some e) =>
      match convertAstList a generated outermost pats fnArgScope rest with
      | none => none
      | some (a, pats, none) => some (a, pats, none)
      | some (a, pats, some es) => some (a, pats, some (e :: es))

end

namespace AnalyseSt

/-- `analyse.processOneDeclaration` in `parser.ts`:
* replace the declaration's pattern symbols by fresh local temp metas in
  the LHS and RHS copies used for constraints;
* post `type` well-formedness (or mint a type meta) and `lhs : type`;
* a bare-symbol, non-check LHS whose permanent entry has no own-value gets
  the **original** RHS written directly into the permanent registry,
  otherwise `lhsRep ≡ rhsRep` is posted;
* a call-shaped LHS whose head is a symbol new in this elaboration appends
  `{lhs, rhs, patterns}` to the head's rewrite rules. -/
def processOneDeclaration (a : AnalyseSt) (decl : ExpressionDeclaration) :
    Option AnalyseSt :=
  let pr := decl.patterns.foldl
    (fun (p : Subst × AnalyseSt) ps =>
      let (t, solver) := p.2.solver.createTempSymbol true none
      (insertS p.1 ps (.sym t), { p.2 with solver := solver }))
    ([], a)
  let reps := pr.1
  let a := pr.2
  let lhsRep := replaceSymbols decl.lhs reps
  let rhsRep := decl.rhs.map (fun r => replaceSymbols r reps)
  let ta :=
    match decl.type with
    | some t => (t, { a with solver := a.solver.addTypeTypeConstraint t })
    | none =>
      let (ts, solver) := a.solver.createTypeSymbol false
      (Expression.sym ts, { a with solver := solver })
  let type := ta.1
  let a := ta.2
  let a := { a with solver := a.solver.addTypeConstraint lhsRep type }
  let withRhs : Option AnalyseSt :=
    match decl.rhs with
    | none => some a
    | some rhs =>
      let direct : Option (Bool × AnalyseSt) :=
        match decl.checkOnly, decl.lhs with
        | false, .sym s =>
          match a.reg.getSymbolEntry s with
          | none => none
          | some entry =>
            if entry.ownValue.isNone then
              some (true, a.setReg (a.reg.setEntry s { entry with ownValue := some rhs }))
            else some (false, a)
        | _, _ => some (false, a)
      match direct with
      | none => none
      | some (true, a) => some a
      | some (false, a) =>
        match rhsRep with
        | some rr => some { a with solver := a.solver.addEqualConstraint lhsRep rr }
        | none => some a
  match withRhs with
  | none => none
  | some a =>
    match decl.checkOnly, decl.rhs, decl.lhs with
    | false, some rhs, .call (.sym hs) cargs =>
      if hs ∈ a.newSymbols then
        match a.reg.getSymbolEntry hs with
        | none => none
        | some entry =>
          let rules := entry.downValue.getD []
          some (a.setReg (a.reg.setEntry hs
            { entry with downValue := some (rules ++
                [{ patterns := decl.patterns, lhs := .call (.sym hs) cargs, rhs := rhs }]) }))
      else some a
    | _, _, _ => some a

/-- The declare pass of `analyse.loadFile`: `prepareSymbol` for every
declaration's LHS (return values discarded). -/
def prepareAll (a : AnalyseSt) (outermost : Symbol) :
    List AstDeclaration → Option AnalyseSt
  | [] => some a
  | d :: rest =>
    match a.prepareSymbol outermost d.lhs with
    | none => none
    | some (_, a) => prepareAll a outermost rest

/-- The convert loop of `analyse.loadFile`.  The inner `none` result is the
source's early `return exprs` (which skips `processOneDeclaration` for every
declaration). -/
def convertDecls (a : AnalyseSt) (generated outermost : Symbol) :
    List AstDeclaration → List ExpressionDeclaration →
    Option (AnalyseSt × Option (List ExpressionDeclaration))
  | [], acc => some (a, some acc)
  | d :: rest, acc =>
    match convertAst a generated outermost (some []) [] d.lhs with
    | none => none
    | some (a, _, none) => some (a, none)
    | some (a, patsO, some lhsE) =>
      let pats := patsO.getD []
      let tconv : Option (AnalyseSt × Option Expression) :=
        match d.type with
        | some t =>
          match convertAst a generated outermost none [] t with
          | none => none
          | some (a, _, te) => some (a, te)
        | none => some (a, none)
      match tconv with
      | none => none
      | some (a, typeE) =>
        if ¬ a.parseDiags.isEmpty then some (a, none)
        else
          match d.rhs with
          | some r =>
            match convertAst a generated outermost (some pats) [] r with
            | none => none
            | some (a, patsO2, rhsE) =>
              convertDecls a generated outermost rest (acc ++
                [{ patterns := patsO2.getD [], lhs := lhsE, type := typeE,
                   rhs := rhsE, checkOnly := d.checkOnly }])
          | none =>
            convertDecls a generated outermost rest (acc ++
              [{ patterns := pats, lhs := lhsE, type := typeE,
                 rhs := none, checkOnly := d.checkOnly }])

/-- The constrain loop of `analyse.loadFile`. -/
def processDecls (a : AnalyseSt) : List ExpressionDeclaration → Option AnalyseSt
  | [] => some a
  | d :: rest =>
    match a.processOneDeclaration d with
    | none => none
    | some a => processDecls a rest

/-- `analyse.loadFile`: declare pass, early exit on diagnostics, convert
pass (with its own early exits), then constraint emission. -/
def loadFile (a : AnalyseSt) (generated outermost : Symbol) (file : AstFile) :
    Option AnalyseSt :=
  match a.prepareAll outermost file.declarations with
  | none => none
  | some a =>
    if ¬ a.parseDiags.isEmpty then some a
    else
      match a.convertDecls generated outermost file.declarations [] with
      | none => none
      | some (a, none) => some a
      | some (a, some decls) => a.processDecls decls

/-- `newSymbols.forEach(s => context.removeSymbol(s))`. -/
def removeAll (a : AnalyseSt) : List Symbol → Option AnalyseSt
  | [] => some a
  | s :: rest =>
    match a.reg.removeSymbol s with
    | none => none
    | some r => removeAll (a.setReg r) rest

end AnalyseSt

/-- `analyse` followed by its inner `run` in `parser.ts`: create the hidden
`generated` parent, load the file, roll back `newSymbols` when analyse
diagnostics exist, run the solver, roll back `newSymbols` again when solver
diagnostics exist, and return both diagnostic lists (plus the final state
and the solver pass trace). -/
def analyseRun (F C loopFuel : Nat) (r : SymbolRegistry) (outermost : Symbol)
    (file : AstFile) (maxIterations : Nat) :
    Option (List String × List Diag × AnalyseSt × List PassRec) :=
  let a0 : AnalyseSt := { solver := { context := r } }
  match a0.reg.getSymbol none "generated" true with
  | none => none
  | some (none, _) => none
  | some (some generated, r1) =>
    match AnalyseSt.loadFile (a0.setReg r1) generated outermost file with
    | none => none
    | some a =>
      let rolled1 : Option AnalyseSt :=
        if ¬ a.parseDiags.isEmpty then a.removeAll a.newSymbols else some a
      match rolled1 with
      | none => none
      | some a =>
        match solverRun F C loopFuel a.solver maxIterations with
        | none => none
        | some (d, solver, tr) =>
          let a := { a with solver := solver }
          let rolled2 : Option AnalyseSt :=
            if ¬ d.isEmpty then a.removeAll a.newSymbols else some a
          match rolled2 with
          | none => none
          | some a => some (a.parseDiags, d, a, tr)

/-!
## Concrete fixtures

A permanent registry as built by the test driver (`defineInternalSymbols`
plus a `root` scope symbol): handle 0 = `builtin`, handle 1 =
`builtin.Level` (own-value `LEVEL_TYPE`), handle 2 = `root`.
-/

/-- The driver's initial permanent registry. -/
def st0 : SymbolRegistry :=
  { entriesById :=
      [ { name := "builtin", parent := none, isLocal := false, subSymbols := [("Level", 1)] },
        { name := "Level", parent := some 0, isLocal := false, ownValue := some .levelType },
        { name := "root", parent := none, isLocal := false } ],
    entriesByName := [("builtin", 0), ("root", 2)] }

/-- Scenario 6 of the spec: `f : A -> A` with `A` never declared, reduced
to its essence `f : A`.  Elaboration fails with `undefined identifier A`. -/
def file1 : AstFile := ⟨[{ lhs := .identifier "f", type := some (.identifier "A") }]⟩

/-- A file whose elaboration succeeds with an untyped definition:
`Nat : type(0l); Nat.succ : Nat -> Nat; f = \x Nat.succ(x)`. -/
def file2 : AstFile :=
  ⟨[ { lhs := .identifier "Nat", type := some (.typeUniverse (.typeUniverseSubscript 0)) },
     { lhs := .astSymbol ["Nat", "succ"],
       type := some (.fnTypeA (.identifier "Nat") (.identifier "Nat") none) },
     { lhs := .identifier "f",
       rhs := some (.lambda "x" (.callA (.astSymbol ["Nat", "succ"]) [.identifier "x"])) } ]⟩

/-- A solver state with a single temp meta `#0` and the one constraint
`S(S(#0)) ≡ LEVEL 2`, which the solver needs three progressing passes (plus
the quiet pass and the stuck pass) to discharge. -/
def stC7 : SolverSt :=
  { context := {}, temps := [{ name := "", parent := none, isLocal := false }],
    constraints := [.equal (.levelSucc (.levelSucc (.sym 0))) (.level 2)] }

/-- A registry with one local symbol `x` (handle 0), for exercising the
expander on `(\x. x)(0l)`. -/
def regC3 : SymbolRegistry :=
  { entriesById := [{ name := "x", parent := none, isLocal := true }] }

/-- A solver state over one permanent symbol `u` (handle 0) with no
own-value and no type, explicitly unlocked for this elaboration. -/
def stC1 : SolverSt :=
  { context := { entriesById := [{ name := "u", parent := none, isLocal := false }],
                 entriesByName := [("u", 0)] },
    unlockedSymbols := [0] }

/-- A solver state over one temp meta (handle 0 over an empty permanent
registry) with no own-value and no type, for the amended claim's witness. -/
def stC1w : SolverSt :=
  { context := {}, temps := [{ name := "", parent := none, isLocal := false }] }

/-- Registry after allocating a top-level symbol `a` (handle 0). -/
def regA : SymbolRegistry :=
  (((SymbolRegistry.addNewSymbol {} none "a" false).map (fun x => x.2.2)).getD {})

/-- `regA` after `removeSymbol 0` and re-allocating the freed slot for a
top-level symbol `b`. -/
def regB : SymbolRegistry :=
  ((((regA.removeSymbol 0).getD {}).addNewSymbol none "b" false).map (fun x => x.2.2)).getD {}

/-!
## Claims settled by closed computation (code bugs and counterexamples)
-/

mutual

/-- Positions at which `replaceE` actually substitutes: an expression is
`okRepl`-clean for a domain `D` when no dependent `FN_TYPE` binder masks a
`D`-symbol and no `D`-symbol sits under a `LEVEL_SUCC` or `LEVEL_MAX` node
(which `Replacer._replace`'s default branch pushes back without
descending). -/
def okRepl (D : List Symbol) : Expression → Bool
  | .sym _ => true
  | .call fn args => okRepl D fn && okReplList D args
  | .lam _ body => okRepl D body
  | .fnType i o arg =>
    okRepl D i && okRepl D o &&
      (match arg with
       | some a => !(decide (a ∈ D))
       | none => true)
  | .universe s => okRepl D s
  | .levelSucc e => (symbolsOf e).all (fun s => !(decide (s ∈ D)))
  | .levelMax l r => (symbolsOf l ++ symbolsOf r).all (fun s => !(decide (s ∈ D)))
  | .pat _ => true
  | .placeholder => true
  | .levelType => true
  | .level _ => true

/-- `okRepl` over a list of call arguments. -/
def okReplList (D : List Symbol) : List Expression → Bool
  | [] => true
  | e :: rest => okRepl D e && okReplList D rest

end

/-- A symbol is unlinked when its (still present) entry's name no longer
resolves in its parent's child map — the state `removeSymbol` leaves
behind, since the entry array itself is never shrunk. -/
def unlinked (r : SymbolRegistry) (s : Symbol) : Bool :=
  match r.getSymbolEntry s with
  | none => true
  | some e =>
    match e.parent with
    | none => true
    | some p =>
      match r.entriesById.get? p with
      | none => true
      | some pe => (lookupN pe.subSymbols e.name).isNone

/-- The permanent entry of `f` in the solved-temp fixture: its type
mentions the temp symbol `1`. -/
def eC9f : SymbolEntry :=
  { name := "f", parent := none, isLocal := false, subSymbols := [],
    type := some (.sym 1) }

/-- A solver state with one permanent symbol `f : #1`, one solved temp
`#1 := 3l`, and `f` affected. -/
def stC9 : SolverSt :=
  { context := { entriesById := [eC9f], entriesByName := [("f", 0)] },
    temps := [{ name := "", parent := none, isLocal := false,
                type := some .levelType, ownValue := some (.level 3) }],
    affectedSymbols := [0] }

/-- The state the final check produces on `stC9`. -/
def stC9fin : SolverSt :=
  (finalCheck 9 stC9).getD stC9

/-- The program `f = \x. x`: its elaboration leaves the non-local type
meta of `f` un-inferred, so the solver phase ends with an UNINFERED_VAR
diagnostic and the rollback runs. -/
def file3 : AstFile :=
  ⟨[{ lhs := .identifier "f", rhs := some (.lambda "x" (.identifier "x")) }]⟩

/-- The result of elaborating `file3` over the driver registry. -/
def res3 : List String × List Diag × AnalyseSt × List PassRec :=
  (analyseRun 40 40 40 st0 2 file3 100).getD ([], [], { solver := { context := {} } }, [])

/-- **C3** (code bug): the claim says `expand` of `(\x. b)(a)` equals
`expand` of `b` with `x` replaced by `a` — the reduced body, not a lambda.
The code instead passes the whole lambda to `replaceOneSymbol`
(`Expander._expandCall`, LAMBDA case), which — because the `Replacer`'s
LAMBDA case never masks the binder — returns the *lambda wrapper* with a
substituted body: `expand((\x. x)(0l))` yields `\x. 0l`, not `0l`, while
expanding the substituted body alone yields `0l`. -/
theorem beta_reduction_keeps_lambda_wrapper :
    expandTop regC3 [] 50 (.call (.lam 0 (.sym 0)) [.level 0]) =
      some (.lam 0 (.level 0), true) ∧
    expandTop regC3 [] 50 (replaceOneSymbol (.sym 0) 0 (.level 0)) =
      some (.level 0, false) ∧
    (Expression.lam 0 (.level 0)) ≠ .level 0 := by
  refine ⟨rfl, rfl, ?_⟩
  intro h
  exact Expression.noConfusion h

/-- **C4** (code bug): the claim says substitution masks a `LAMBDA`'s bound
symbol while descending into its body.  The source's `Replacer._replace`
LAMBDA case saves and restores the old binding but omits the
`maps.delete(arg)` that its FN_TYPE case performs, so the bound occurrence
*is* replaced: `replaceOneSymbol (\x. x) x 7l = \x. 7l`.  The dependent
FN_TYPE case masks correctly on the same shape. -/
theorem lambda_substitution_replaces_bound_occurrence :
    replaceOneSymbol (.lam 0 (.sym 0)) 0 (.level 7) = .lam 0 (.level 7) ∧
    replaceOneSymbol (.lam 0 (.sym 0)) 0 (.level 7) ≠ .lam 0 (.sym 0) ∧
    replaceOneSymbol (.fnType (.sym 0) (.sym 0) (some 0)) 0 (.level 7) =
      .fnType (.level 7) (.sym 0) (some 0) := by
  refine ⟨rfl, ?_, rfl⟩
  intro h
  simp [replaceOneSymbol, replaceE, lookupS] at h

/-- **C5** (code bug): the claim says any mismatch of tags or structure —
including a `LEVEL_SUCC` pattern against a subject that is neither a
`LEVEL_SUCC` nor a positive `LEVEL` literal — makes `matchPattern` fail.
The source's `LEVEL_SUCC` case has no failing branch for any other subject
kind and silently falls through, so a `LEVEL_SUCC` pattern against a
`SYMBOL` subject *succeeds* with the empty substitution (under which the
pattern stays `S(0l)`, which is not the subject). -/
theorem levelSucc_pattern_mismatch_succeeds :
    matchPattern 50 (.sym 3) (.levelSucc (.level 0)) = .matched [] ∧
    (Expression.levelSucc (.level 0)) ≠ .sym 3 := by
  refine ⟨rfl, ?_⟩
  intro h
  exact Expression.noConfusion h

/-- **C7** (code bug): the claim says `run(maxIterations)` executes at most
`maxIterations` passes and reports exceeding the bound.  `run` declares
`let iterations = 0` and checks `iterations > maxIterations`, but the only
increment happens on `logDump`'s parameter copy, so the compared counter
stays 0 and the cap never fires: on `stC7` with `maxIterations = 1` (and even
`0`) the loop runs 5 passes (three changed ordinary passes, the quiet pass
and the stuck pass) and terminates only because a fixed point is reached,
with nothing reported. -/
theorem iteration_cap_never_fires :
    (runLoop 100 100 30 stC7 0 1).map
        (fun r => (r.2.map PassRec.changed, r.1.diagnostics.length)) =
      some ([true, true, true, false, false], 0) ∧
    (runLoop 100 100 30 stC7 0 0).map (fun r => r.2.length) = some 5 := by
  exact ⟨rfl, rfl⟩

/-- **C2** (counterexample): elaborating `file1` over the driver registry
ends with one analyse diagnostic (`undefined identifier A`), yet the
permanent symbol `generated` (handle 3) — newly created by this elaboration
as the hidden parent for pattern holes, before any declaration is
processed — is still reachable from the root name map afterwards, so not
every permanent symbol newly created during the failed elaboration is
removed.  (The tracked symbol `f`, handle 4, *is* unlinked: `root`'s child
map is empty and slot 4 is freed.) -/
theorem generated_symbol_survives_failed_elaboration :
    lookupN st0.entriesByName "generated" = none ∧
    (analyseRun 200 100 50 st0 2 file1 1000000).map
        (fun r => (r.1, lookupN r.2.2.1.reg.entriesByName "generated",
          (r.2.2.1.reg.entriesById.get? 3).map (fun e => e.name),
          (r.2.2.1.reg.entriesById.get? 2).map (fun e => e.subSymbols),
          r.2.2.1.reg.removedSymbols)) =
      some (["undefined identifier A"], some 3, some "generated", some [], [4]) := by
  exact ⟨rfl, rfl⟩

/-- **C9** (counterexample): elaborating `file2` ends with no analyse and
no solver diagnostics, yet afterwards the permanent entry of `f` (handle 6)
has type `(x: Nat) -> Nat` whose binder-argument symbol is the temp symbol
16 — a scratch handle at or above the permanent count — so a permanent
registry entry still references a temp symbol after a clean run. -/
theorem temp_binder_leaks_into_permanent_type :
    (analyseRun 200 100 50 st0 2 file2 1000000).map
        (fun r => (r.1, r.2.1,
          (r.2.2.1.reg.entriesById.get? 6).map (fun e => (e.name, e.type)),
          isTempSymbol r.2.2.1.reg 16)) =
      some ([], [], some ("f", some (.fnType (.sym 4) (.sym 4) (some 16))), true) := by
  exact rfl

/-- **C1** (counterexample): `u` (handle 0 of `stC1`) has no own-value, is
an unlocked symbol, and assigning `0l` to it creates no own-value cycle —
the claim's three conditions hold with "temp or unlocked" — yet the
assignment fails: `trySetOwnValue` returns `false` (the current code
requires the symbol to be *temp*, dropping the unlocked alternative), and
the EQUAL constraint `u ≡ 0l` is simply requeued with `u` left unassigned. -/
theorem unlocked_symbol_assignment_fails :
    (stC1.getEntry 0).map (fun e => e.ownValue) = some none ∧
    (0 : Symbol) ∈ stC1.unlockedSymbols ∧
    checkOwnValueCycle 100 stC1 0 (.level 0) = true ∧
    SolverSt.trySetOwnValue 100 stC1 0 (.level 0) = some (false, stC1) ∧
    SolverSt.evaluateEqualConstraint 200 100 stC1 (.sym 0) (.level 0) false =
      some (false, stC1.requeue (.equal (.sym 0) (.level 0))) := by
  exact ⟨rfl, by decide, rfl, rfl, rfl⟩

/-- **C10** (counterexample): handle 0 is returned by
`addNewSymbol(null, "a")`, which creates the entry named `a`; after
`removeSymbol 0`, `addNewSymbol(null, "b")` reuses slot 0 (returning it as
new), and `getSymbolEntry` on the old handle now yields the entry named
`b` — not the entry created at the handle's earlier allocation. -/
theorem reused_handle_returns_new_entry :
    (SymbolRegistry.addNewSymbol {} none "a" false).map (fun x => (x.1, x.2.1)) =
      some (0, true) ∧
    (regA.getSymbolEntry 0).map (fun e => e.name) = some "a" ∧
    ((regA.removeSymbol 0).bind (fun r => r.addNewSymbol none "b" false)).map
        (fun x => (x.1, x.2.1)) = some (0, true) ∧
    (regB.getSymbolEntry 0).map (fun e => e.name) = some "b" := by
  exact ⟨rfl, rfl, rfl, rfl⟩

/-!
## Support lemmas
-/

/-- `listSet` preserves the length. -/
theorem listSet_length {α : Type} (l : List α) (n : Nat) (a : α) :
    (listSet l n a).length = l.length := by
  induction l generalizing n with
  | nil => rfl
  | cons x rest ih =>
    cases n with
    | zero => rfl
    | succ m => simp [listSet, ih]

/-- `SymbolRegistry.setEntry` preserves the symbol count. -/
theorem setEntry_count (r : SymbolRegistry) (s : Symbol) (e : SymbolEntry) :
    (r.setEntry s e).getSymbolCount = r.getSymbolCount := by
  simp [SymbolRegistry.setEntry, SymbolRegistry.getSymbolCount, listSet_length]

/-- `SolverSt.setEntry` preserves the permanent count, hence `isTemp`. -/
theorem solver_setEntry_isTemp (st : SolverSt) (s t : Symbol) (e : SymbolEntry) :
    (st.setEntry s e).isTemp t = st.isTemp t := by
  unfold SolverSt.setEntry SolverSt.isTemp isTempSymbol
  split <;> simp [setEntry_count]

/-- `SolverSt.addTypeConstraint` leaves the registry untouched. -/
theorem addTypeConstraint_isTemp (st : SolverSt) (e t : Expression) (u : Symbol) :
    (st.addTypeConstraint e t).isTemp u = st.isTemp u := by
  rfl

/-- **C1** (amended): the solver's own-value assignment
(`trySetOwnValue`, as invoked by `evaluateEqualConstraint` once the
expanded, oriented left side is a symbol) succeeds **iff** the symbol has
no own-value, is a *temp* symbol (the unlocked-symbol alternative of the
claim was dropped from the current code), and the proposed value passes the
own-value cycle check; and on success the own-value is written and, when
the symbol has a known type `T`, the constraint `value : T` is emitted. -/
theorem trySetOwnValue_success_iff (C : Nat) (st : SolverSt) (s : Symbol)
    (v : Expression) (entry : SymbolEntry) (h : st.getEntry s = some entry) :
    ((∃ st', SolverSt.trySetOwnValue C st s v = some (true, st')) ↔
      (entry.ownValue = none ∧ st.isTemp s = true ∧
        checkOwnValueCycle C st s v = true)) ∧
    (∀ st', SolverSt.trySetOwnValue C st s v = some (true, st') →
      st' =
        (match entry.type with
         | some t => (st.setEntry s { entry with ownValue := some v }).addTypeConstraint v t
         | none => st.setEntry s { entry with ownValue := some v })) := by
  have hmain : SolverSt.trySetOwnValue C st s v =
      (if entry.ownValue.isSome then some (false, st)
       else if ¬ st.isTemp s then some (false, st)
       else if ¬ checkOwnValueCycle C st s v then
         some (false, st.pushDiag (.unequal (.sym s) v))
       else some (true,
         match entry.type with
         | some t => (st.setEntry s { entry with ownValue := some v }).addTypeConstraint v t
         | none => st.setEntry s { entry with ownValue := some v })) := by
    unfold SolverSt.trySetOwnValue
    rw [h]
    by_cases h1 : entry.ownValue.isSome
    · simp [h1]
    · simp only [h1, if_false]
      by_cases h2 : st.isTemp s
      · simp only [h2, not_true, if_false, if_neg]
        by_cases h3 : checkOwnValueCycle C st s v
        · simp only [h3, not_true, if_false, if_neg]
          cases hty : entry.type <;>
            simp [hty, solver_setEntry_isTemp, addTypeConstraint_isTemp, h2]
        · simp [h3]
      · simp [h2]
  rw [hmain]
  by_cases h1 : entry.ownValue.isSome
  · simp only [h1, if_true]
    constructor
    · constructor
      · intro ⟨st', h'⟩
        simp at h'
      · intro ⟨hh, _⟩
        rw [hh] at h1
        simp at h1
    · intro st' h'
      simp at h'
  · have hownone : entry.ownValue = none := by
      cases hx : entry.ownValue
      · rfl
      · rw [hx] at h1; simp at h1
    simp only [h1, if_false]
    by_cases h2 : st.isTemp s
    · by_cases h3 : checkOwnValueCycle C st s v
      · simp only [h2, h3, not_true, if_neg, if_false]
        constructor
        · constructor
          · intro _
            refine ⟨hownone, ?_, ?_⟩ <;> simp [h2, h3]
          · intro _
            exact ⟨_, rfl⟩
        · intro st' h'
          simp at h'
          exact h'.symm
      · simp only [h2, h3, not_true, not_false_iff, if_neg, if_pos]
        constructor
        · constructor
          · intro ⟨st', h'⟩
            simp at h'
          · intro ⟨_, _, hh⟩
            simp at hh
        · intro st' h'
          simp at h'
    · simp only [h2, not_false_iff, if_pos]
      constructor
      · constructor
        · intro ⟨st', h'⟩
          simp at h'
        · intro ⟨_, hh, _⟩
          simp at hh
      · intro st' h'
        simp at h'

/-- Witness for `trySetOwnValue_success_iff`: on the temp meta of `stC1w`
the three conditions hold and the assignment indeed succeeds. -/
theorem trySetOwnValue_success_iff_witness :
    ∃ st', SolverSt.trySetOwnValue 100 stC1w 0 (.level 0) = some (true, st') :=
  (trySetOwnValue_success_iff 100 stC1w 0 (.level 0)
      { name := "", parent := none, isLocal := false } rfl).1.mpr ⟨rfl, rfl, rfl⟩

/-- A pass trace in which every stuck pass immediately follows an ordinary
pass that reported no change (and every ordinary no-change pass is followed
by its stuck pass). -/
def stuckMarked : List PassRec → Bool
  | [] => true
  | ⟨false, true⟩ :: rest => stuckMarked rest
  | ⟨false, false⟩ :: ⟨true, _⟩ :: rest => stuckMarked rest
  | _ => false

/-- In every terminating `runLoop` trace, a stuck pass occurs only
immediately after an ordinary pass that produced no change. -/
theorem runLoop_stuckMarked (F C : Nat) :
    ∀ (fuel : Nat) (st : SolverSt) (it maxIter : Nat) (st' : SolverSt) (tr : List PassRec),
      runLoop F C fuel st it maxIter = some (st', tr) → stuckMarked tr = true := by
  intro fuel
  induction fuel with
  | zero =>
    intro st it maxIter st' tr h
    simp [runLoop] at h
  | succ f ih =>
    intro st it maxIter st' tr h
    unfold runLoop at h
    split at h
    · cases h
      rfl
    · cases hiter : SolverSt.iterate F C st false with
      | none => rw [hiter] at h; exact absurd h (by simp)
      | some p =>
        rw [hiter] at h
        obtain ⟨c1, st1⟩ := p
        by_cases hc1 : c1
        · subst hc1
          simp only [if_true] at h
          cases hrec : runLoop F C f st1 it maxIter with
          | none => rw [hrec] at h; exact absurd h (by simp)
          | some q =>
            rw [hrec] at h
            obtain ⟨st2, tr2⟩ := q
            have htr : tr = PassRec.mk false true :: tr2 :=
              (congrArg Prod.snd (Option.some.inj h)).symm
            rw [htr]
            show stuckMarked tr2 = true
            exact ih st1 it maxIter st2 tr2 hrec
        · simp only [Bool.not_eq_true] at hc1
          subst hc1
          simp only [if_false, Bool.false_eq_true] at h
          cases hiter2 : SolverSt.iterate F C st1 true with
          | none => rw [hiter2] at h; exact absurd h (by simp)
          | some q =>
            rw [hiter2] at h
            obtain ⟨c2, st2⟩ := q
            by_cases hc2 : c2
            · subst hc2
              simp only [if_true] at h
              cases hrec : runLoop F C f st2 it maxIter with
              | none => rw [hrec] at h; exact absurd h (by simp)
              | some q2 =>
                rw [hrec] at h
                obtain ⟨st3, tr3⟩ := q2
                have htr : tr = PassRec.mk false false :: PassRec.mk true true :: tr3 :=
                  (congrArg Prod.snd (Option.some.inj h)).symm
                rw [htr]
                show stuckMarked tr3 = true
                exact ih st2 it maxIter st3 tr3 hrec
            · simp only [Bool.not_eq_true] at hc2
              subst hc2
              simp only [if_false, Bool.false_eq_true] at h
              cases h
              rfl

/-- With `previouslyNoChange = false`, an EQUAL constraint whose two sides
both expand to CALL expressions is never decomposed: the evaluation posts
the re-expanded equality when an expansion made progress, else requeues the
original constraint, in both cases leaving the diagnostics untouched. -/
theorem evalEqual_no_decomposition (F C : Nat) (st : SolverSt)
    (e1 e2 f1 f2 : Expression) (a1 a2 : List Expression) (c1 c2 : Bool)
    (h1 : expandTop st.context st.temps F e1 = some (.call f1 a1, c1))
    (h2 : expandTop st.context st.temps F e2 = some (.call f2 a2, c2)) :
    SolverSt.evaluateEqualConstraint F C st e1 e2 false =
      some (c1 || c2,
        if c1 || c2 then st.addEqualConstraint (.call f1 a1) (.call f2 a2)
        else st.requeue (.equal e1 e2)) := by
  unfold SolverSt.evaluateEqualConstraint
  rw [h1, h2]
  show some (SolverSt.evalEqualRest st (.call f1 a1) (.call f2 a2) c1 c2 false e1 e2) = _
  unfold SolverSt.evalEqualRest
  show some
      (match SolverSt.matchLevelSucc st (.call f1 a1) (.call f2 a2) with
       | (true, st) => (true, st)
       | (false, st) =>
         if c1 || c2 then (true, st.addEqualConstraint (.call f1 a1) (.call f2 a2))
         else (false, st.requeue (.equal e1 e2))) = _
  have hml : SolverSt.matchLevelSucc st (.call f1 a1) (.call f2 a2) = (false, st) := rfl
  rw [hml]
  by_cases hc : c1 || c2
  · rw [hc]
    simp [hc]
  · simp only [Bool.not_eq_true] at hc
    rw [hc]
    simp [hc]

/-- A two-permanent-symbol registry for the witness: `f` (0) and `g` (1),
no types, no own-values, no rules. -/
def regC6 : SymbolRegistry :=
  { entriesById :=
      [ { name := "f", parent := none, isLocal := false },
        { name := "g", parent := none, isLocal := false } ],
    entriesByName := [("f", 0), ("g", 1)] }

def stC6 : SolverSt :=
  { context := regC6 }

/-- **C6** (confirmed): CALL-vs-CALL head-equality decomposition is never
applied during ordinary solver iterations.  First conjunct: with the stuck
flag off, an EQUAL constraint whose sides both expand to CALLs is reposted
or requeued, never decomposed and never diagnosed.  Second conjunct: in the
driver's pass trace, a stuck pass (`previouslyNoChange = true`) runs only
immediately after an ordinary pass that produced no change. -/
theorem call_decomposition_only_in_stuck_pass :
    (∀ (F C : Nat) (st : SolverSt) (e1 e2 f1 f2 : Expression)
       (a1 a2 : List Expression) (c1 c2 : Bool),
(expandTop st.context st.temps F e1 = some (.call f1 a1, c1)) →
(expandTop st.context st.temps F e2 = some (.call f2 a2, c2)) →
       SolverSt.evaluateEqualConstraint F C st e1 e2 false =
         some (c1 || c2,
           if c1 || c2 then st.addEqualConstraint (.call f1 a1) (.call f2 a2)
           else st.requeue (.equal e1 e2))) ∧
    (∀ (F C fuel : Nat) (st : SolverSt) (it maxIter : Nat) (st' : SolverSt)
       (tr : List PassRec),
       runLoop F C fuel st it maxIter = some (st', tr) → stuckMarked tr = true) :=
  ⟨fun F C st e1 e2 f1 f2 a1 a2 c1 c2 h1 h2 =>
     evalEqual_no_decomposition F C st e1 e2 f1 f2 a1 a2 c1 c2 h1 h2,
   fun F C fuel st it maxIter st' tr h =>
     runLoop_stuckMarked F C fuel st it maxIter st' tr h⟩

/-- Witness for `call_decomposition_only_in_stuck_pass`, at the concrete
constraint `f(0l) ≡ g(1l)` over `stC6` and at the concrete `stC7` run. -/
theorem call_decomposition_only_in_stuck_pass_witness :
    SolverSt.evaluateEqualConstraint 50 50 stC6
        (.call (.sym 0) [.level 0]) (.call (.sym 1) [.level 1]) false =
      some (false, stC6.requeue (.equal (.call (.sym 0) [.level 0])
        (.call (.sym 1) [.level 1]))) ∧
    stuckMarked [⟨false, true⟩, ⟨false, true⟩, ⟨false, true⟩, ⟨false, false⟩,
      ⟨true, false⟩] = true := by
  constructor
  · exact call_decomposition_only_in_stuck_pass.1 50 50 stC6
      (.call (.sym 0) [.level 0]) (.call (.sym 1) [.level 1])
      (.sym 0) (.sym 1) [.level 0] [.level 1] false false rfl rfl
  · exact call_decomposition_only_in_stuck_pass.2 100 100 30 stC7 0 1 _ _ rfl

/-- `listSet` at one index leaves lookups at other indices unchanged. -/
theorem listSet_get?_ne {α : Type} (l : List α) (n m : Nat) (a : α) (h : n ≠ m) :
    (listSet l n a).get? m = l.get? m := by
  induction l generalizing n m with
  | nil => rfl
  | cons x rest ih =>
    cases n with
    | zero =>
      cases m with
      | zero => exact absurd rfl h
      | succ mm => rfl
    | succ nn =>
      cases m with
      | zero => rfl
      | succ mm =>
        show (listSet rest nn a).get? mm = rest.get? mm
        exact ih nn mm (fun hx => h (by rw [hx]))

/-- `listSet` at an in-range index stores the element. -/
theorem listSet_get?_self {α : Type} (l : List α) (n : Nat) (a : α) (h : n < l.length) :
    (listSet l n a).get? n = some a := by
  induction l generalizing n with
  | nil => simp at h
  | cons x rest ih =>
    cases n with
    | zero => rfl
    | succ nn =>
      show (listSet rest nn a).get? nn = some a
      exact ih nn (by simpa using h)

/-- `SolverSt.setEntry` does not touch the diagnostics. -/
theorem setEntry_diagnostics (st : SolverSt) (s : Symbol) (e : SymbolEntry) :
    (st.setEntry s e).diagnostics = st.diagnostics := by
  unfold SolverSt.setEntry
  split <;> rfl

/-- `substAffected` does not touch the diagnostics. -/
theorem substAffected_diagnostics (reps : Subst) :
    ∀ (l : List Symbol) (st st' : SolverSt), substAffected reps st l = some st' →
      st'.diagnostics = st.diagnostics := by
  intro l
  induction l with
  | nil =>
    intro st st' h
    cases h
    rfl
  | cons s rest ih =>
    intro st st' h
    unfold substAffected at h
    cases hg : st.getEntry s with
    | none => rw [hg] at h; exact absurd h (by simp)
    | some e =>
      rw [hg] at h
      have := ih (st.setEntry s (substEntry reps e)) st' h
      rw [this, setEntry_diagnostics]

/-- `substAffected` preserves a temp entry's `LEVEL 0` own-value: the
substitution maps `some (LEVEL 0)` to itself. -/
theorem substAffected_ownLevel (reps : Subst) :
    ∀ (l : List Symbol) (st st' : SolverSt), substAffected reps st l = some st' →
    ∀ (i : Nat) (e : SymbolEntry), st.temps.get? i = some e →
      e.ownValue = some (.level 0) →
      ∃ e', st'.temps.get? i = some e' ∧ e'.ownValue = some (.level 0) := by
  intro l
  induction l with
  | nil =>
    intro st st' h i e hi hown
    cases h
    exact ⟨e, hi, hown⟩
  | cons s rest ih =>
    intro st st' h i e hi hown
    unfold substAffected at h
    cases hg : st.getEntry s with
    | none => rw [hg] at h; exact absurd h (by simp)
    | some e0 =>
      rw [hg] at h
      by_cases hlt : s < st.context.getSymbolCount
      · have htemps : (st.setEntry s (substEntry reps e0)).temps = st.temps := by
          unfold SolverSt.setEntry
          rw [if_pos hlt]
        exact ih _ st' h i e (by rw [htemps]; exact hi) hown
      · have htemps : (st.setEntry s (substEntry reps e0)).temps =
            listSet st.temps (s - st.context.getSymbolCount) (substEntry reps e0) := by
          unfold SolverSt.setEntry
          rw [if_neg hlt]
        by_cases hidx : s - st.context.getSymbolCount = i
        · have he0 : st.temps.get? i = some e0 := by
            have : st.getEntry s = st.temps.get? (s - st.context.getSymbolCount) := by
              unfold SolverSt.getEntry getSymbolEntryT
              rw [if_neg hlt]
            rw [hidx] at this
            rw [← this, hg]
          have he0e : e0 = e := by
            have := he0.symm.trans hi
            exact Option.some.inj this
          have hlen : i < st.temps.length := (List.get?_eq_some.mp hi).choose
          have hget : (st.setEntry s (substEntry reps e0)).temps.get? i =
              some (substEntry reps e0) := by
            rw [htemps, ← hidx]
            exact listSet_get?_self st.temps (s - st.context.getSymbolCount)
              (substEntry reps e0) (hidx ▸ hlen)
          refine ih _ st' h i (substEntry reps e0) hget ?_
          unfold substEntry
          rw [he0e, hown]
          rfl
        · have hget : (st.setEntry s (substEntry reps e0)).temps.get? i = some e := by
            rw [htemps, listSet_get?_ne _ _ _ _ hidx]
            exact hi
          exact ih _ st' h i e hget hown

/-- **C8** (confirmed): after the solver's iteration terminates, the final
check (1) sets the own-value of every temp symbol typed `LEVEL_TYPE` and
lacking one to the level literal 0, (2) appends one UNRESOLVED_CONSTRAINT
diagnostic per constraint still queued, in order, and (3) appends one
UNINFERRED_VAR diagnostic listing every non-local temp symbol still without
an own-value (none when the list is empty). -/
theorem finalCheck_defaults_and_reports (F : Nat) (st st' : SolverSt)
    (h : finalCheck F st = some st') :
    (∀ (i : Nat) (e : SymbolEntry), st.temps.get? i = some e →
      e.type = some .levelType → e.ownValue = none →
      ∃ e', st'.temps.get? i = some e' ∧ e'.ownValue = some (.level 0)) ∧
    st'.diagnostics =
      st.diagnostics ++ st.constraints.map Diag.unresolvedConstraint ++
        (if (uninferedOf (fcReported st)).isEmpty
         then []
         else [Diag.uninferedVar (uninferedOf (fcReported st))]) := by
  unfold finalCheck at h
  cases hreps : tempRepsGo F (fcReported st) (fcReported st).temps 0 [] with
  | none =>
    rw [hreps] at h
    exact absurd h (by simp)
  | some reps =>
    rw [hreps] at h
    simp only [] at h
    constructor
    · intro i e hi htype hown
      have hdval : (defaultLevelEntry e).ownValue = some (.level 0) := by
        unfold defaultLevelEntry
        rw [htype, hown]
      refine substAffected_ownLevel reps _ _ st' h i (defaultLevelEntry e) ?_ hdval
      split
      · show (st.temps.map defaultLevelEntry).get? i = _
        rw [List.get?_map, hi]
        rfl
      · show (st.temps.map defaultLevelEntry).get? i = _
        rw [List.get?_map, hi]
        rfl
    · have hd := substAffected_diagnostics reps _ _ st' h
      rw [hd]
      by_cases hu : (uninferedOf (fcReported st)).isEmpty
      · rw [if_pos hu, if_pos hu]
        simp [fcReported]
      · rw [if_neg hu, if_neg hu]
        rfl

/-- A state for the witness: two temp metas over an empty permanent
registry — `#0` typed `LEVEL_TYPE` with no own-value (defaulted to `0l`),
`#1` untyped, non-local and own-value-less (reported) — plus one leftover
constraint. -/
def stC8 : SolverSt :=
  { context := {},
    temps :=
      [ { name := "", parent := none, isLocal := false, type := some .levelType },
        { name := "", parent := none, isLocal := false } ],
    constraints := [.equal (.sym 0) (.sym 1)] }

/-- Witness for `finalCheck_defaults_and_reports` at `stC8`. -/
theorem finalCheck_defaults_and_reports_witness :
    (∃ e', ((finalCheck 50 stC8).getD { context := {} }).temps.get? 0 = some e' ∧
      e'.ownValue = some (.level 0)) ∧
    ((finalCheck 50 stC8).getD { context := {} }).diagnostics =
      [Diag.unresolvedConstraint (.equal (.sym 0) (.sym 1)), Diag.uninferedVar [1]] := by
  have h := finalCheck_defaults_and_reports 50 stC8
    ((finalCheck 50 stC8).getD { context := {} }) rfl
  refine ⟨h.1 0 ⟨"", none, false, [], some .levelType, none, none⟩ rfl rfl rfl,
    h.2.trans rfl⟩

/-- Free-slot sanity: every handle on the free list is in range (true of
every registry the program builds, since slots are only freed by
`removeSymbol` on existing entries). -/
def RemovedInRange (r : SymbolRegistry) : Prop :=
  ∀ x ∈ r.removedSymbols, x < r.entriesById.length

/-- `createSymbol` stores an entry carrying the requested name, parent and
locality at the returned handle, which is in range; the entry array never
shrinks. -/
theorem createSymbol_spec (r : SymbolRegistry) (p : Option Symbol) (n : String)
    (l : Bool) (hrem : RemovedInRange r) :
    (∃ e, (r.createSymbol p n l).2.getSymbolEntry (r.createSymbol p n l).1 = some e ∧
      e.name = n ∧ e.parent = p ∧ e.isLocal = l) ∧
    (r.createSymbol p n l).1 < (r.createSymbol p n l).2.entriesById.length ∧
    r.entriesById.length ≤ (r.createSymbol p n l).2.entriesById.length := by
  have fresh : SymbolEntry := { name := n, parent := p, isLocal := l }
  cases hrm : r.removedSymbols with
  | cons ret rest =>
    have hret : ret < r.entriesById.length := hrem ret (by rw [hrm]; exact List.mem_cons_self _ _)
    have hslot : (listSet r.entriesById ret { name := n, parent := p, isLocal := l }).get? ret =
        some { name := n, parent := p, isLocal := l } :=
      listSet_get?_self _ _ _ hret
    have hlen1 : (listSet r.entriesById ret
        ({ name := n, parent := p, isLocal := l } : SymbolEntry)).length =
        r.entriesById.length := listSet_length _ _ _
    simp only [SymbolRegistry.createSymbol, hrm]
    cases p with
    | none =>
      refine ⟨⟨{ name := n, parent := none, isLocal := l }, ?_, rfl, rfl, rfl⟩, ?_, ?_⟩
      · exact hslot
      · rw [hlen1]; exact hret
      · rw [hlen1]
    | some q =>
      cases hq : (listSet r.entriesById ret
          ({ name := n, parent := some q, isLocal := l } : SymbolEntry)).get? q with
      | none =>
        refine ⟨⟨{ name := n, parent := some q, isLocal := l }, ?_, rfl, rfl, rfl⟩, ?_, ?_⟩
        · simp only [hq]
          exact hslot
        · simp only [hq]
          rw [hlen1]; exact hret
        · simp only [hq]
          rw [hlen1]
      | some pe =>
        simp only [hq]
        by_cases hpq : q = ret
        · have hvq : (listSet r.entriesById ret
              ({ name := n, parent := some q, isLocal := l } : SymbolEntry)).get? q =
              some { name := n, parent := some q, isLocal := l } := by
            rw [hpq]
            exact listSet_get?_self _ _ _ hret
          have hpe : pe = { name := n, parent := some q, isLocal := l } :=
            Option.some.inj (hq.symm.trans hvq)
          rw [hpq]
          refine ⟨⟨{ pe with subSymbols := insertN pe.subSymbols n ret }, ?_, ?_, ?_, ?_⟩,
            ?_, ?_⟩
          · show (listSet (listSet r.entriesById ret _) ret _).get? ret = _
            exact listSet_get?_self _ _ _ (by rw [listSet_length]; exact hret)
          · rw [hpe]
          · rw [hpe, hpq]
          · rw [hpe]
          · show ret < (listSet (listSet r.entriesById ret _) ret _).length
            rw [listSet_length, listSet_length]; exact hret
          · show r.entriesById.length ≤ (listSet (listSet r.entriesById ret _) ret _).length
            rw [listSet_length, listSet_length]
        · refine ⟨⟨{ name := n, parent := some q, isLocal := l }, ?_, rfl, rfl, rfl⟩, ?_, ?_⟩
          · show (listSet (listSet r.entriesById ret _) q _).get? ret = _
            rw [listSet_get?_ne _ _ _ _ hpq]
            exact hslot
          · show ret < (listSet (listSet r.entriesById ret _) q _).length
            rw [listSet_length, listSet_length]; exact hret
          · show r.entriesById.length ≤ (listSet (listSet r.entriesById ret _) q _).length
            rw [listSet_length, listSet_length]
  | nil =>
    have happ : (r.entriesById ++
        [({ name := n, parent := p, isLocal := l } : SymbolEntry)]).get?
          r.entriesById.length = some { name := n, parent := p, isLocal := l } := by
      rw [List.get?_append_right (Nat.le_refl _)]
      simp
    simp only [SymbolRegistry.createSymbol, hrm]
    cases p with
    | none =>
      refine ⟨⟨{ name := n, parent := none, isLocal := l }, happ, rfl, rfl, rfl⟩, ?_, ?_⟩
      · simp
      · simp
    | some q =>
      cases hq : (r.entriesById ++
          [({ name := n, parent := some q, isLocal := l } : SymbolEntry)]).get? q with
      | none =>
        simp only [hq]
        refine ⟨⟨{ name := n, parent := some q, isLocal := l }, happ, rfl, rfl, rfl⟩, ?_, ?_⟩
        · simp
        · simp
      | some pe =>
        simp only [hq]
        by_cases hpq : q = r.entriesById.length
        · have hvq : (r.entriesById ++
              [({ name := n, parent := some q, isLocal := l } : SymbolEntry)]).get? q =
              some { name := n, parent := some q, isLocal := l } := by
            rw [hpq]
            rw [List.get?_append_right (Nat.le_refl _)]
            simp
          have hpe : pe = { name := n, parent := some q, isLocal := l } :=
            Option.some.inj (hq.symm.trans hvq)
          rw [hpq]
          refine ⟨⟨{ pe with subSymbols := insertN pe.subSymbols n r.entriesById.length },
            ?_, ?_, ?_, ?_⟩, ?_, ?_⟩
          · show (listSet (r.entriesById ++ [_]) r.entriesById.length _).get?
                r.entriesById.length = _
            exact listSet_get?_self _ _ _ (by simp)
          · rw [hpe]
          · rw [hpe, hpq]
          · rw [hpe]
          · show r.entriesById.length < (listSet (r.entriesById ++ [_]) _ _).length
            rw [listSet_length]; simp
          · show r.entriesById.length ≤ (listSet (r.entriesById ++ [_]) _ _).length
            rw [listSet_length]; simp
        · refine ⟨⟨{ name := n, parent := some q, isLocal := l }, ?_, rfl, rfl, rfl⟩, ?_, ?_⟩
          · show (listSet (r.entriesById ++ [_]) q _).get? r.entriesById.length = _
            rw [listSet_get?_ne _ _ _ _ hpq]
            exact happ
          · show r.entriesById.length < (listSet (r.entriesById ++ [_]) q _).length
            rw [listSet_length]; simp
          · show r.entriesById.length ≤ (listSet (r.entriesById ++ [_]) q _).length
            rw [listSet_length]; simp

/-- **C10** (amended): symbol lookup is total on every handle below the
registry's entry count — in particular on allocated handles, since the
entry array never shrinks — and `getSymbolEntry` panics (returns `none`)
exactly on handles at or above the count.  A handle freshly returned by
`addNewSymbol` is in range and resolves to the entry just created with the
requested name, parent and locality (the entry created at the handle's
*most recent* allocation — after `removeSymbol` frees a slot, a later
allocation overwrites it, as the counterexample shows).  A
`createTempSymbol` handle resolves through the temp registry to the entry
created at allocation, and `removeSymbol` never shrinks the entry array. -/
theorem registry_lookup_total_on_allocated :
    (∀ (r : SymbolRegistry) (s : Symbol),
       r.getSymbolEntry s = none ↔ r.entriesById.length ≤ s) ∧
    (∀ (r : SymbolRegistry) (p : Option Symbol) (n : String) (l : Bool)
       (s : Symbol) (w : Bool) (r' : SymbolRegistry),
       RemovedInRange r → r.addNewSymbol p n l = some (s, w, r') → w = true →
       s < r'.entriesById.length ∧
       r.entriesById.length ≤ r'.entriesById.length ∧
       ∃ e, r'.getSymbolEntry s = some e ∧ e.name = n ∧ e.parent = p ∧
         e.isLocal = l) ∧
    (∀ (st : SolverSt) (l : Bool) (t : Option Expression),
       getSymbolEntryT (st.createTempSymbol l t).2.context (st.createTempSymbol l t).2.temps
           (st.createTempSymbol l t).1 =
         some { name := "", parent := none, isLocal := l, type := t }) ∧
    (∀ (r r' : SymbolRegistry) (s : Symbol), r.removeSymbol s = some r' →
       r'.entriesById.length = r.entriesById.length) := by
  refine ⟨?_, ?_, ?_, ?_⟩
  · intro r s
    exact List.get?_eq_none
  · intro r p n l s w r' hrem h hw
    subst hw
    have hcs := createSymbol_spec r p n l hrem
    cases p with
    | some pp =>
      simp only [SymbolRegistry.addNewSymbol] at h
      split at h
      · exact absurd h (by simp)
      · split at h
        · simp at h
        · have hinj := Option.some.inj h
          have hs : s = (r.createSymbol (some pp) n l).1 :=
            (congrArg (fun x => x.1) hinj).symm
          have hr : r' = (r.createSymbol (some pp) n l).2 :=
            (congrArg (fun x => x.2.2) hinj).symm
          rw [hs, hr]
          exact ⟨hcs.2.1, hcs.2.2, hcs.1⟩
    | none =>
      simp only [SymbolRegistry.addNewSymbol] at h
      split at h
      · simp at h
      · have hinj := Option.some.inj h
        have hs : s = (r.createSymbol none n l).1 :=
          (congrArg (fun x => x.1) hinj).symm
        have hr : r' = (r.createSymbol none n l).2 :=
          (congrArg (fun x => x.2.2) hinj).symm
        rw [hs, hr]
        exact ⟨hcs.2.1, hcs.2.2, hcs.1⟩
  · intro st l t
    unfold SolverSt.createTempSymbol getSymbolEntryT
    have hnot : ¬ (st.temps.length + st.context.getSymbolCount < st.context.getSymbolCount) := by
      omega
    rw [if_neg hnot]
    have hidx : st.temps.length + st.context.getSymbolCount - st.context.getSymbolCount =
        st.temps.length := by omega
    rw [hidx]
    rw [List.get?_append_right (Nat.le_refl _)]
    simp
  · intro r r' s h
    unfold SymbolRegistry.removeSymbol at h
    split at h
    · exact absurd h (by simp)
    · have hr' := Option.some.inj h
      rw [← hr']
      split
      · split
        · show (listSet r.entriesById _ _).length = _
          exact listSet_length _ _ _
        · rfl
      · rfl

/-- Witness for `registry_lookup_total_on_allocated`: the empty registry,
the allocation of `a` into `regA`, a temp allocation over `stC1w`, and the
removal that produces `regA`'s successor. -/
theorem registry_lookup_total_on_allocated_witness :
    (({} : SymbolRegistry).getSymbolEntry 0 = none) ∧
    (∃ e, regA.getSymbolEntry 0 = some e ∧ e.name = "a" ∧ e.parent = none ∧
      e.isLocal = false) ∧
    getSymbolEntryT (stC1w.createTempSymbol false none).2.context
        (stC1w.createTempSymbol false none).2.temps
        (stC1w.createTempSymbol false none).1 =
      some { name := "", parent := none, isLocal := false, type := none } ∧
    ((regA.removeSymbol 0).getD {}).entriesById.length = regA.entriesById.length := by
  refine ⟨?_, ?_, ?_, ?_⟩
  · exact (registry_lookup_total_on_allocated.1 {} 0).mpr (Nat.le_refl 0)
  · exact (registry_lookup_total_on_allocated.2.1 {} none "a" false 0 true regA
      (fun x hx => absurd hx (List.not_mem_nil x)) rfl rfl).2.2
  · exact registry_lookup_total_on_allocated.2.2.1 stC1w false none
  · exact registry_lookup_total_on_allocated.2.2.2 regA ((regA.removeSymbol 0).getD {}) 0 rfl

/-- `Map.get` hits only stored pairs. -/
theorem lookupS_mem : ∀ (m : Subst) (s : Symbol) (v : Expression),
    lookupS m s = some v → (s, v) ∈ m
  | [], _, _, h => by simp [lookupS] at h
  | (k, w) :: rest, s, v, h => by
    by_cases hk : k = s
    · subst hk
      simp only [lookupS, if_pos] at h
      rw [← Option.some.inj h]
      exact List.mem_cons_self _ _
    · simp only [lookupS, if_neg hk] at h
      exact List.mem_cons_of_mem _ (lookupS_mem rest s v h)

/-- Deleting one key leaves other lookups unchanged. -/
theorem lookupS_eraseS_ne (a d : Symbol) (h : d ≠ a) :
    ∀ (m : Subst), lookupS (eraseS m a) d = lookupS m d
  | [] => rfl
  | (k, w) :: rest => by
    simp only [eraseS, List.filter_cons]
    by_cases hk : k = a
    · have hc : (decide ((k, w).1 ≠ a)) = false := by simp [hk]
      rw [hc, if_neg Bool.false_ne_true]
      have hkd : ¬ (k = d) := fun hh => h (hh.symm.trans hk)
      have ht := lookupS_eraseS_ne a d h rest
      simp only [eraseS] at ht
      rw [ht]
      simp only [lookupS, if_neg hkd]
    · have hc : (decide ((k, w).1 ≠ a)) = true := by simpa using hk
      rw [hc, if_pos rfl]
      by_cases hkd : k = d
      · simp only [lookupS, if_pos hkd]
      · simp only [lookupS, if_neg hkd]
        have ht := lookupS_eraseS_ne a d h rest
        simpa only [eraseS] using ht

mutual

/-- Over a domain `D` covered by the map, with map values free of `D`,
`replaceE` eliminates every `D`-symbol from an `okRepl`-clean
expression. -/
theorem replaceE_free :
    ∀ (e : Expression) (D : List Symbol) (maps : Subst),
      (∀ d, d ∈ D → containsS maps d = true) →
      (∀ k v, (k, v) ∈ maps → ∀ d, d ∈ D → d ∉ symbolsOf v) →
      okRepl D e = true → ∀ d, d ∈ D → d ∉ symbolsOf (replaceE maps e)
  | .sym s, D, maps, hcov, hval, _, d, hd => by
    cases hl : lookupS maps s with
    | some v =>
      have hre : replaceE maps (.sym s) = v := by
        simp only [replaceE, hl]
      rw [hre]
      exact hval s v (lookupS_mem maps s v hl) d hd
    | none =>
      have hre : replaceE maps (.sym s) = .sym s := by
        simp only [replaceE, hl]
      rw [hre]
      intro hmem
      have hds : d = s := by simpa [symbolsOf] using hmem
      have hc := hcov d hd
      rw [hds, containsS, hl] at hc
      simp at hc
  | .call fn args, D, maps, hcov, hval, hok, d, hd => by
    have h1 : okRepl D fn = true ∧ okReplList D args = true := by
      simpa [okRepl, Bool.and_eq_true] using hok
    have hre : replaceE maps (.call fn args) =
        .call (replaceE maps fn) (replaceEList maps args) := by
      simp only [replaceE]
    rw [hre]
    intro hmem
    rcases List.mem_append.mp (by simpa [symbolsOf] using hmem) with hm | hm
    · exact replaceE_free fn D maps hcov hval h1.1 d hd hm
    · exact replaceEList_free args D maps hcov hval h1.2 d hd hm
  | .lam a body, D, maps, hcov, hval, hok, d, hd => by
    have hre : replaceE maps (.lam a body) = .lam a (replaceE maps body) := by
      simp only [replaceE]
    rw [hre]
    intro hmem
    exact replaceE_free body D maps hcov hval (by simpa [okRepl] using hok) d hd
      (by simpa [symbolsOf] using hmem)
  | .fnType i o arg, D, maps, hcov, hval, hok, d, hd => by
    cases arg with
    | none =>
      have h1 : okRepl D i = true ∧ okRepl D o = true := by
        simpa [okRepl, Bool.and_eq_true] using hok
      have hre : replaceE maps (.fnType i o none) =
          .fnType (replaceE maps i) (replaceE maps o) none := by
        simp only [replaceE]
      rw [hre]
      intro hmem
      rcases List.mem_append.mp (by simpa [symbolsOf] using hmem) with hm | hm
      · exact replaceE_free i D maps hcov hval h1.1 d hd hm
      · exact replaceE_free o D maps hcov hval h1.2 d hd hm
    | some a =>
      have h1 : okRepl D i = true ∧ okRepl D o = true ∧ a ∉ D := by
        have h2 := hok
        simp only [okRepl, Bool.and_eq_true] at h2
        refine ⟨h2.1.1, h2.1.2, ?_⟩
        simpa using h2.2
      by_cases hca : containsS maps a = true
      · have hre : replaceE maps (.fnType i o (some a)) =
            .fnType (replaceE maps i) (replaceE (eraseS maps a) o) (some a) := by
          simp only [replaceE]
          rw [if_pos hca]
        rw [hre]
        intro hmem
        rcases List.mem_append.mp (by simpa [symbolsOf] using hmem) with hm | hm
        · exact replaceE_free i D maps hcov hval h1.1 d hd hm
        · have hcov' : ∀ d', d' ∈ D → containsS (eraseS maps a) d' = true := by
            intro d' hd'
            have hne : d' ≠ a := fun hh => h1.2.2 (hh ▸ hd')
            rw [containsS, lookupS_eraseS_ne a d' hne maps]
            exact hcov d' hd'
          have hval' : ∀ k v, (k, v) ∈ eraseS maps a →
              ∀ d', d' ∈ D → d' ∉ symbolsOf v := by
            intro k v hkv
            exact hval k v (List.mem_filter.mp hkv).1
          exact replaceE_free o D (eraseS maps a) hcov' hval' h1.2.1 d hd hm
      · have hre : replaceE maps (.fnType i o (some a)) =
            .fnType (replaceE maps i) (replaceE maps o) (some a) := by
          simp only [replaceE]
          rw [if_neg hca]
        rw [hre]
        intro hmem
        rcases List.mem_append.mp (by simpa [symbolsOf] using hmem) with hm | hm
        · exact replaceE_free i D maps hcov hval h1.1 d hd hm
        · exact replaceE_free o D maps hcov hval h1.2.1 d hd hm
  | .universe s, D, maps, hcov, hval, hok, d, hd => by
    have hre : replaceE maps (.universe s) = .universe (replaceE maps s) := by
      simp only [replaceE]
    rw [hre]
    intro hmem
    exact replaceE_free s D maps hcov hval (by simpa [okRepl] using hok) d hd
      (by simpa [symbolsOf] using hmem)
  | .pat v, D, maps, _, _, _, d, hd => by
    intro hmem
    simp [replaceE, symbolsOf] at hmem
  | .placeholder, D, maps, _, _, _, d, hd => by
    intro hmem
    simp [replaceE, symbolsOf] at hmem
  | .levelType, D, maps, _, _, _, d, hd => by
    intro hmem
    simp [replaceE, symbolsOf] at hmem
  | .level v, D, maps, _, _, _, d, hd => by
    intro hmem
    simp [replaceE, symbolsOf] at hmem
  | .levelSucc e, D, maps, _, _, hok, d, hd => by
    have hre : replaceE maps (.levelSucc e) = .levelSucc e := by
      simp only [replaceE]
    rw [hre]
    intro hmem
    have hmem' : d ∈ symbolsOf e := by simpa [symbolsOf] using hmem
    have hok' : ∀ x ∈ symbolsOf e, x ∉ D := by simpa [okRepl] using hok
    exact hok' d hmem' hd
  | .levelMax l r, D, maps, _, _, hok, d, hd => by
    have hre : replaceE maps (.levelMax l r) = .levelMax l r := by
      simp only [replaceE]
    rw [hre]
    intro hmem
    have hmem' : d ∈ symbolsOf l ++ symbolsOf r := by simpa [symbolsOf] using hmem
    have hok' : (∀ x ∈ symbolsOf l, x ∉ D) ∧ (∀ x ∈ symbolsOf r, x ∉ D) := by
      simpa [okRepl] using hok
    rcases List.mem_append.mp hmem' with hm | hm
    · exact hok'.1 d hm hd
    · exact hok'.2 d hm hd

/-- `replaceE_free` over a list of call arguments. -/
theorem replaceEList_free :
    ∀ (l : List Expression) (D : List Symbol) (maps : Subst),
      (∀ d, d ∈ D → containsS maps d = true) →
      (∀ k v, (k, v) ∈ maps → ∀ d, d ∈ D → d ∉ symbolsOf v) →
      okReplList D l = true → ∀ d, d ∈ D → d ∉ symbolsOfList (replaceEList maps l)
  | [], _, _, _, _, _, d, _ => by simp [replaceEList, symbolsOfList]
  | e :: rest, D, maps, hcov, hval, hok, d, hd => by
    have h1 : okRepl D e = true ∧ okReplList D rest = true := by
      simpa [okReplList, Bool.and_eq_true] using hok
    intro hmem
    rcases List.mem_append.mp
        (by simpa [replaceEList, symbolsOfList] using hmem) with hm | hm
    · exact replaceE_free e D maps hcov hval h1.1 d hd hm
    · exact replaceEList_free rest D maps hcov hval h1.2 d hd hm

end

/-- Writing one entry leaves other handles' lookups unchanged. -/
theorem getEntry_setEntry_ne (st : SolverSt) (s s' : Symbol) (e' : SymbolEntry)
    (h : s ≠ s') : (st.setEntry s' e').getEntry s = st.getEntry s := by
  unfold SolverSt.setEntry SolverSt.getEntry getSymbolEntryT
  by_cases h1 : s' < st.context.getSymbolCount
  · rw [if_pos h1]
    show (if s < (st.context.setEntry s' e').getSymbolCount then
        (st.context.setEntry s' e').getSymbolEntry s else _) = _
    rw [setEntry_count]
    by_cases h2 : s < st.context.getSymbolCount
    · rw [if_pos h2, if_pos h2]
      show (listSet st.context.entriesById s' e').get? s = _
      exact listSet_get?_ne _ _ _ _ (fun hh => h hh.symm)
    · rw [if_neg h2, if_neg h2]
  · rw [if_neg h1]
    show (if s < st.context.getSymbolCount then st.context.getSymbolEntry s
        else (listSet st.temps (s' - st.context.getSymbolCount) e').get? _) = _
    by_cases h2 : s < st.context.getSymbolCount
    · rw [if_pos h2, if_pos h2]
    · rw [if_neg h2, if_neg h2]
      show (listSet st.temps (s' - st.context.getSymbolCount) e').get?
          (s - st.context.getSymbolCount) = st.temps.get? (s - st.context.getSymbolCount)
      refine listSet_get?_ne st.temps (s' - st.context.getSymbolCount)
        (s - st.context.getSymbolCount) e' ?_
      intro hh
      apply h
      have h1le : st.context.getSymbolCount ≤ s' := Nat.not_lt.mp h1
      have h2le : st.context.getSymbolCount ≤ s := Nat.not_lt.mp h2
      have hc := congrArg (fun x => x + st.context.getSymbolCount) hh
      simp only [] at hc
      rw [Nat.sub_add_cancel h1le, Nat.sub_add_cancel h2le] at hc
      exact hc.symm

/-- Writing one entry makes that handle resolve to it. -/
theorem getEntry_setEntry_self (st : SolverSt) (s : Symbol) (e0 e' : SymbolEntry)
    (h : st.getEntry s = some e0) : (st.setEntry s e').getEntry s = some e' := by
  unfold SolverSt.getEntry getSymbolEntryT at h
  unfold SolverSt.setEntry SolverSt.getEntry getSymbolEntryT
  by_cases h1 : s < st.context.getSymbolCount
  · rw [if_pos h1] at h
    rw [if_pos h1]
    show (if s < (st.context.setEntry s e').getSymbolCount then
        (st.context.setEntry s e').getSymbolEntry s else _) = _
    rw [setEntry_count, if_pos h1]
    show (listSet st.context.entriesById s e').get? s = _
    have hlen : s < st.context.entriesById.length := by
      have := List.get?_eq_some.mp h
      exact this.choose
    exact listSet_get?_self _ _ _ hlen
  · rw [if_neg h1] at h
    rw [if_neg h1]
    show (if s < st.context.getSymbolCount then st.context.getSymbolEntry s
        else (listSet st.temps (s - st.context.getSymbolCount) e').get? _) = _
    rw [if_neg h1]
    have hlen : s - st.context.getSymbolCount < st.temps.length := by
      have := List.get?_eq_some.mp h
      exact this.choose
    exact listSet_get?_self _ _ _ hlen

/-- The final-check substitution pass does not disturb handles outside its
worklist. -/
theorem substAffected_getEntry_notmem (reps : Subst) :
    ∀ (l : List Symbol) (st stf : SolverSt) (s : Symbol),
      substAffected reps st l = some stf → s ∉ l → stf.getEntry s = st.getEntry s
  | [], st, stf, s, h, _ => by
    cases Option.some.inj h
    rfl
  | s0 :: rest, st, stf, s, h, hnm => by
    simp only [substAffected] at h
    cases hg : st.getEntry s0 with
    | none => rw [hg] at h; exact absurd h (by simp)
    | some e0 =>
      rw [hg] at h
      have hs : s ≠ s0 := fun hh => hnm (hh ▸ List.mem_cons_self s0 rest)
      have ih := substAffected_getEntry_notmem reps rest _ stf s h
        (fun hm => hnm (List.mem_cons_of_mem _ hm))
      rw [ih, getEntry_setEntry_ne st s s0 _ hs]

/-- Each worklist handle ends with its entry rewritten by `substEntry`. -/
theorem substAffected_getEntry_mem (reps : Subst) :
    ∀ (l : List Symbol) (st stf : SolverSt) (s : Symbol) (e : SymbolEntry),
      substAffected reps st l = some stf → l.Nodup → s ∈ l →
      st.getEntry s = some e → stf.getEntry s = some (substEntry reps e)
  | [], _, _, s, _, _, _, hm, _ => absurd hm (List.not_mem_nil s)
  | s0 :: rest, st, stf, s, e, h, hnd, hm, hg => by
    simp only [substAffected] at h
    cases hg0 : st.getEntry s0 with
    | none => rw [hg0] at h; exact absurd h (by simp)
    | some e0 =>
      rw [hg0] at h
      rcases List.mem_cons.mp hm with he | hm'
      · subst he
        have he0 : e0 = e := Option.some.inj (hg0.symm.trans hg)
        subst he0
        have hnotin : s ∉ rest := (List.nodup_cons.mp hnd).1
        have hpres := substAffected_getEntry_notmem reps rest _ stf s h hnotin
        rw [hpres, getEntry_setEntry_self st s e0 _ hg0]
      · have hnd' := (List.nodup_cons.mp hnd).2
        have hne : s ≠ s0 := fun hh => (List.nodup_cons.mp hnd).1 (hh ▸ hm')
        have hg' : (st.setEntry s0 (substEntry reps e0)).getEntry s = some e := by
          rw [getEntry_setEntry_ne st s s0 _ hne]
          exact hg
        exact substAffected_getEntry_mem reps rest _ stf s e h hnd' hm' hg'

/-- **C9** (amended): when the final check succeeds, every symbol in the
`affectedSymbols` worklist ends with its entry rewritten by `substEntry`
with the `tempReps` map — the expanded own-values of the solved temps
substituted into its type, own value and rewrite rules; and over a domain
covered by that map, with the substituted values themselves free of the
domain, the rewrite eliminates every SYMBOL-node occurrence of a domain
symbol from an `okRepl`-clean type and own value (no masked dependent
binder and no domain symbol under `LEVEL_SUCC`/`LEVEL_MAX`).  Binder `arg`
markers are not SYMBOL nodes and are never rewritten, which is how the
leak of the companion counterexample survives. -/
theorem finalCheck_substitutes_solved_temps :
    (∀ (F : Nat) (st st' : SolverSt) (reps : Subst),
       tempRepsGo F (fcReported st) (fcReported st).temps 0 [] = some reps →
       finalCheck F st = some st' →
       st.affectedSymbols.Nodup →
       ∀ s, s ∈ st.affectedSymbols → ∀ e, (fcReported st).getEntry s = some e →
         st'.getEntry s = some (substEntry reps e)) ∧
    (∀ (D : List Symbol) (reps : Subst) (e : SymbolEntry),
       (∀ d, d ∈ D → containsS reps d = true) →
       (∀ k v, (k, v) ∈ reps → ∀ d, d ∈ D → d ∉ symbolsOf v) →
       (∀ t, e.type = some t → okRepl D t = true) →
       (∀ o, e.ownValue = some o → okRepl D o = true) →
       ∀ d, d ∈ D →
         (∀ t, (substEntry reps e).type = some t → d ∉ symbolsOf t) ∧
         (∀ o, (substEntry reps e).ownValue = some o → d ∉ symbolsOf o)) := by
  constructor
  · intro F st st' reps hreps hfc hnd s hs e hge
    unfold finalCheck at hfc
    rw [hreps] at hfc
    simp only [] at hfc
    by_cases hu : (uninferedOf (fcReported st)).isEmpty
    · rw [if_pos hu] at hfc
      exact substAffected_getEntry_mem reps st.affectedSymbols (fcReported st) st' s e
        hfc hnd hs hge
    · rw [if_neg hu] at hfc
      exact substAffected_getEntry_mem reps st.affectedSymbols
        ((fcReported st).pushDiag (.uninferedVar (uninferedOf (fcReported st)))) st' s e
        hfc hnd hs hge
  · intro D reps e hcov hval htype hown d hd
    constructor
    · intro t ht
      cases he : e.type with
      | none =>
        rw [show (substEntry reps e).type = e.type.map (fun x => replaceSymbols x reps)
          from rfl, he] at ht
        exact absurd ht (by simp)
      | some t0 =>
        rw [show (substEntry reps e).type = e.type.map (fun x => replaceSymbols x reps)
          from rfl, he] at ht
        have htv : t = replaceE reps t0 := (Option.some.inj ht).symm
        rw [htv]
        exact replaceE_free t0 D reps hcov hval (htype t0 he) d hd
    · intro o ho
      cases he : e.ownValue with
      | none =>
        rw [show (substEntry reps e).ownValue = e.ownValue.map (fun x => replaceSymbols x reps)
          from rfl, he] at ho
        exact absurd ho (by simp)
      | some o0 =>
        rw [show (substEntry reps e).ownValue = e.ownValue.map (fun x => replaceSymbols x reps)
          from rfl, he] at ho
        have hov : o = replaceE reps o0 := (Option.some.inj ho).symm
        rw [hov]
        exact replaceE_free o0 D reps hcov hval (hown o0 he) d hd

/-- Witness for `finalCheck_substitutes_solved_temps`: the final check over
`stC9` rewrites `f`'s entry with the solved temp's value, and the solved
temp `1` no longer occurs in the substituted type. -/
theorem finalCheck_substitutes_solved_temps_witness :
    stC9fin.getEntry 0 = some (substEntry [(1, Expression.level 3)] eC9f) ∧
    (1 : Symbol) ∉ symbolsOf (Expression.level 3) := by
  constructor
  · exact finalCheck_substitutes_solved_temps.1 9 stC9 stC9fin [(1, .level 3)]
      rfl rfl (by decide) 0 (by decide) eC9f rfl
  · refine (finalCheck_substitutes_solved_temps.2 [1] [(1, .level 3)] eC9f
      (by decide) ?_ ?_ ?_ 1 (by decide)).1 (Expression.level 3) rfl
    · intro k v hkv d hdm
      have hv : v = Expression.level 3 := congrArg Prod.snd (List.mem_singleton.mp hkv)
      rw [hv]
      simp [symbolsOf]
    · intro t ht
      have htv : t = Expression.sym 1 := Option.some.inj ht.symm
      rw [htv]
      decide
    · intro o ho
      exact absurd ho (by simp [eC9f])

/-- `eraseN` removes every binding of the erased name. -/
theorem lookupN_eraseN_self (n : String) :
    ∀ (m : List (String × Symbol)), lookupN (eraseN m n) n = none
  | [] => rfl
  | (k, v) :: rest => by
    simp only [eraseN, List.filter_cons]
    by_cases hk : k = n
    · have hc : (decide ((k, v).1 ≠ n)) = false := by simp [hk]
      rw [hc, if_neg Bool.false_ne_true]
      have ht := lookupN_eraseN_self n rest
      simpa only [eraseN] using ht
    · have hc : (decide ((k, v).1 ≠ n)) = true := by simpa using hk
      rw [hc, if_pos rfl]
      simp only [lookupN, if_neg hk]
      have ht := lookupN_eraseN_self n rest
      simpa only [eraseN] using ht

/-- `eraseN` never adds bindings. -/
theorem lookupN_eraseN_none (n n' : String) :
    ∀ (m : List (String × Symbol)), lookupN m n = none →
      lookupN (eraseN m n') n = none
  | [], _ => rfl
  | (k, v) :: rest, h => by
    have hkn : ¬ (k = n) := by
      intro hk
      simp only [lookupN, if_pos hk] at h
      exact Option.noConfusion h
    have h' : lookupN rest n = none := by
      simpa only [lookupN, if_neg hkn] using h
    simp only [eraseN, List.filter_cons]
    by_cases hk : k = n'
    · have hc : (decide ((k, v).1 ≠ n')) = false := by simp [hk]
      rw [hc, if_neg Bool.false_ne_true]
      have ht := lookupN_eraseN_none n n' rest h'
      simpa only [eraseN] using ht
    · have hc : (decide ((k, v).1 ≠ n')) = true := by simpa using hk
      rw [hc, if_pos rfl]
      simp only [lookupN, if_neg hkn]
      have ht := lookupN_eraseN_none n n' rest h'
      simpa only [eraseN] using ht

/-- Introduction form of `unlinked`. -/
theorem unlinked_intro (r : SymbolRegistry) (s : Symbol)
    (h : ∀ e p pe, r.getSymbolEntry s = some e → e.parent = some p →
      r.entriesById.get? p = some pe → lookupN pe.subSymbols e.name = none) :
    unlinked r s = true := by
  unfold unlinked
  split
  · rfl
  · rename_i e hge
    split
    · rfl
    · rename_i p hp
      split
      · rfl
      · rename_i pe hpe
        rw [h e p pe hge hp hpe]
        rfl

/-- Elimination form of `unlinked`. -/
theorem unlinked_elim (r : SymbolRegistry) (s : Symbol) (hu : unlinked r s = true)
    (e : SymbolEntry) (p : Symbol) (pe : SymbolEntry)
    (hge : r.getSymbolEntry s = some e) (hp : e.parent = some p)
    (hpe : r.entriesById.get? p = some pe) :
    lookupN pe.subSymbols e.name = none := by
  unfold unlinked at hu
  split at hu
  · rename_i h1
    rw [h1] at hge
    exact absurd hge (by simp)
  · rename_i e0 h1
    have he : e0 = e := Option.some.inj (h1.symm.trans hge)
    rw [he] at hu
    split at hu
    · rename_i h2
      rw [h2] at hp
      exact absurd hp (by simp)
    · rename_i p0 h2
      have hpp : p0 = p := Option.some.inj (h2.symm.trans hp)
      rw [hpp] at hu
      split at hu
      · rename_i h3
        rw [h3] at hpe
        exact absurd hpe (by simp)
      · rename_i pe0 h3
        have hpe0 : pe0 = pe := Option.some.inj (h3.symm.trans hpe)
        rw [hpe0] at hu
        exact Option.isNone_iff_eq_none.mp hu

/-- `removeSymbol` leaves its argument unlinked. -/
theorem removeSymbol_unlinks (r r' : SymbolRegistry) (s : Symbol)
    (h : r.removeSymbol s = some r') : unlinked r' s = true := by
  unfold SymbolRegistry.removeSymbol at h
  split at h
  · exact absurd h (by simp)
  · rename_i e hge
    cases hp : e.parent with
    | none =>
      rw [hp] at h
      have hr' := Option.some.inj h
      apply unlinked_intro
      intro e2 q qe2 hge2 hp2 hpe2
      rw [← hr'] at hge2
      have hge2' : r.getSymbolEntry s = some e2 := hge2
      have he2 : e2 = e := Option.some.inj (hge2'.symm.trans hge)
      rw [he2, hp] at hp2
      exact absurd hp2 (by simp)
    | some p =>
      rw [hp] at h
      simp only [] at h
      cases hpe : r.entriesById.get? p with
      | none =>
        rw [hpe] at h
        simp only [] at h
        have hr' := Option.some.inj h
        apply unlinked_intro
        intro e2 q qe2 hge2 hp2 hpe2
        rw [← hr'] at hge2 hpe2
        have hge2' : r.getSymbolEntry s = some e2 := hge2
        have he2 : e2 = e := Option.some.inj (hge2'.symm.trans hge)
        have hq : q = p := by
          rw [he2, hp] at hp2
          exact (Option.some.inj hp2).symm
        have hpe2' : r.entriesById.get? p = some qe2 := by
          rw [← hq]
          exact hpe2
        rw [hpe] at hpe2'
        exact absurd hpe2' (by simp)
      | some pe =>
        rw [hpe] at h
        simp only [] at h
        have hr' := Option.some.inj h
        have hplen : p < r.entriesById.length := (List.get?_eq_some.mp hpe).choose
        apply unlinked_intro
        intro e2 q qe2 hge2 hp2 hpe2
        rw [← hr'] at hge2 hpe2
        have hge2' : (listSet r.entriesById p
            { pe with subSymbols := eraseN pe.subSymbols e.name }).get? s = some e2 := hge2
        have hpe2' : (listSet r.entriesById p
            { pe with subSymbols := eraseN pe.subSymbols e.name }).get? q = some qe2 := hpe2
        have hename : e2.name = e.name ∧ e2.parent = e.parent := by
          by_cases hsp : s = p
          · have hself := listSet_get?_self r.entriesById p
              { pe with subSymbols := eraseN pe.subSymbols e.name } hplen
            rw [hsp] at hge2'
            have he2 : e2 = { pe with subSymbols := eraseN pe.subSymbols e.name } :=
              Option.some.inj (hge2'.symm.trans hself)
            have hepe : e = pe := by
              have hgep : r.entriesById.get? p = some e := by
                rw [← hsp]
                exact hge
              exact Option.some.inj (hgep.symm.trans hpe)
            rw [he2, hepe]
            exact ⟨rfl, rfl⟩
          · have hne := listSet_get?_ne r.entriesById p s
              { pe with subSymbols := eraseN pe.subSymbols e.name }
              (fun hh => hsp hh.symm)
            rw [hne] at hge2'
            have he2 : e2 = e := Option.some.inj (hge2'.symm.trans hge)
            rw [he2]
            exact ⟨rfl, rfl⟩
        have hq : q = p := by
          rw [hename.2, hp] at hp2
          exact (Option.some.inj hp2).symm
        have hqe2 : qe2 = { pe with subSymbols := eraseN pe.subSymbols e.name } := by
          rw [hq] at hpe2'
          have hself := listSet_get?_self r.entriesById p
            { pe with subSymbols := eraseN pe.subSymbols e.name } hplen
          exact Option.some.inj (hpe2'.symm.trans hself)
        rw [hqe2, hename.1]
        exact lookupN_eraseN_self e.name pe.subSymbols

/-- `removeSymbol` never re-links an unlinked symbol: its only child-map
edit is an `eraseN`, and entry names and parents are preserved. -/
theorem removeSymbol_preserves_unlinked (r r' : SymbolRegistry) (s s' : Symbol)
    (hu : unlinked r s = true) (h : r.removeSymbol s' = some r') :
    unlinked r' s = true := by
  unfold SymbolRegistry.removeSymbol at h
  split at h
  · exact absurd h (by simp)
  · rename_i e' hge'
    cases hp : e'.parent with
    | none =>
      rw [hp] at h
      have hr' := Option.some.inj h
      apply unlinked_intro
      intro e2 q qe2 hge2 hp2 hpe2
      rw [← hr'] at hge2 hpe2
      have hge2' : r.getSymbolEntry s = some e2 := hge2
      have hpe2' : r.entriesById.get? q = some qe2 := hpe2
      exact unlinked_elim r s hu e2 q qe2 hge2' hp2 hpe2'
    | some p =>
      rw [hp] at h
      simp only [] at h
      cases hpe : r.entriesById.get? p with
      | none =>
        rw [hpe] at h
        simp only [] at h
        have hr' := Option.some.inj h
        apply unlinked_intro
        intro e2 q qe2 hge2 hp2 hpe2
        rw [← hr'] at hge2 hpe2
        have hge2' : r.getSymbolEntry s = some e2 := hge2
        have hpe2' : r.entriesById.get? q = some qe2 := hpe2
        exact unlinked_elim r s hu e2 q qe2 hge2' hp2 hpe2'
      | some pe =>
        rw [hpe] at h
        simp only [] at h
        have hr' := Option.some.inj h
        have hplen : p < r.entriesById.length := (List.get?_eq_some.mp hpe).choose
        apply unlinked_intro
        intro e2 q qe2 hge2 hp2 hpe2
        rw [← hr'] at hge2 hpe2
        have hge2' : (listSet r.entriesById p
            { pe with subSymbols := eraseN pe.subSymbols e'.name }).get? s = some e2 := hge2
        have hpe2' : (listSet r.entriesById p
            { pe with subSymbols := eraseN pe.subSymbols e'.name }).get? q = some qe2 := hpe2
        have hename : ∃ e0, r.getSymbolEntry s = some e0 ∧
            e2.name = e0.name ∧ e2.parent = e0.parent := by
          by_cases hsp : s = p
          · have hself := listSet_get?_self r.entriesById p
              { pe with subSymbols := eraseN pe.subSymbols e'.name } hplen
            rw [hsp] at hge2'
            have he2 : e2 = { pe with subSymbols := eraseN pe.subSymbols e'.name } :=
              Option.some.inj (hge2'.symm.trans hself)
            refine ⟨pe, ?_, ?_, ?_⟩
            · rw [hsp]
              exact hpe
            · rw [he2]
            · rw [he2]
          · have hne := listSet_get?_ne r.entriesById p s
              { pe with subSymbols := eraseN pe.subSymbols e'.name }
              (fun hh => hsp hh.symm)
            rw [hne] at hge2'
            exact ⟨e2, hge2', rfl, rfl⟩
        rcases hename with ⟨e0, hge0, hn0, hp0⟩
        have hp20 : e0.parent = some q := by
          rw [← hp0]
          exact hp2
        by_cases hqp : q = p
        · have hqe2 : qe2 = { pe with subSymbols := eraseN pe.subSymbols e'.name } := by
            rw [hqp] at hpe2'
            have hself := listSet_get?_self r.entriesById p
              { pe with subSymbols := eraseN pe.subSymbols e'.name } hplen
            exact Option.some.inj (hpe2'.symm.trans hself)
          have hold : lookupN pe.subSymbols e0.name = none := by
            apply unlinked_elim r s hu e0 q pe hge0 hp20
            rw [hqp]
            exact hpe
          rw [hqe2, hn0]
          exact lookupN_eraseN_none e0.name e'.name pe.subSymbols hold
        · have hne := listSet_get?_ne r.entriesById p q
            { pe with subSymbols := eraseN pe.subSymbols e'.name }
            (fun hh => hqp hh.symm)
          rw [hne] at hpe2'
          rw [hn0]
          exact unlinked_elim r s hu e0 q qe2 hge0 hp20 hpe2'

/-- Unlinkedness is preserved by the rest of the rollback loop. -/
theorem removeAll_preserves :
    ∀ (l : List Symbol) (a a' : AnalyseSt), AnalyseSt.removeAll a l = some a' →
      ∀ s, unlinked a.reg s = true → unlinked a'.reg s = true
  | [], a, a', h, s, hu => by
    cases Option.some.inj h
    exact hu
  | s0 :: rest, a, a', h, s, hu => by
    simp only [AnalyseSt.removeAll] at h
    cases hrm : a.reg.removeSymbol s0 with
    | none => rw [hrm] at h; exact absurd h (by simp)
    | some r =>
      rw [hrm] at h
      have h1 : unlinked r s = true :=
        removeSymbol_preserves_unlinked a.reg r s s0 hu hrm
      exact removeAll_preserves rest (a.setReg r) a' h s h1

/-- The rollback loop unlinks every symbol it visits and leaves the rest
of the analyse state (in particular `newSymbols`) untouched. -/
theorem removeAll_unlinks :
    ∀ (l : List Symbol) (a a' : AnalyseSt), AnalyseSt.removeAll a l = some a' →
      (∀ s, s ∈ l → unlinked a'.reg s = true) ∧
      a'.newSymbols = a.newSymbols ∧ a'.parseDiags = a.parseDiags
  | [], a, a', h => by
    cases Option.some.inj h
    exact ⟨fun s hs => absurd hs (List.not_mem_nil s), rfl, rfl⟩
  | s0 :: rest, a, a', h => by
    simp only [AnalyseSt.removeAll] at h
    cases hrm : a.reg.removeSymbol s0 with
    | none => rw [hrm] at h; exact absurd h (by simp)
    | some r =>
      rw [hrm] at h
      have ih := removeAll_unlinks rest (a.setReg r) a' h
      refine ⟨?_, ih.2.1, ih.2.2⟩
      intro s hs
      rcases List.mem_cons.mp hs with he | hm
      · -- s = s0: unlinked in r, then preserved by the remaining removals
        subst he
        have h0 : unlinked r s = true := removeSymbol_unlinks a.reg r s hrm
        exact removeAll_preserves rest (a.setReg r) a' h s h0
      · exact ih.1 s hm

/-- **C2** (amended): the rollback pass (`newSymbols.forEach(s =>
context.removeSymbol(s))`) unlinks every symbol it visits from its
parent's child map; consequently, when elaboration ends with a solver
diagnostic, every symbol tracked in `newSymbols` is unlinked in the
returned final state.  (The hidden parent `generated`, created untracked
before tracking starts, is not visited — the companion counterexample
shows it persists.) -/
theorem analyse_rollback_unlinks_tracked_symbols :
    (∀ (l : List Symbol) (a a' : AnalyseSt), AnalyseSt.removeAll a l = some a' →
       ∀ s, s ∈ l → unlinked a'.reg s = true) ∧
    (∀ (F C loopFuel : Nat) (r : SymbolRegistry) (outermost : Symbol)
       (file : AstFile) (maxIterations : Nat)
       (pd : List String) (d : List Diag) (aF : AnalyseSt) (tr : List PassRec),
       analyseRun F C loopFuel r outermost file maxIterations = some (pd, d, aF, tr) →
       ¬ d.isEmpty →
       ∀ s, s ∈ aF.newSymbols → unlinked aF.reg s = true) := by
  constructor
  · intro l a a' h s hs
    exact (removeAll_unlinks l a a' h).1 s hs
  · intro F C loopFuel r outermost file maxIterations pd d aF tr h hd s hs
    unfold analyseRun at h
    simp only [] at h
    split at h
    · exact absurd h (by simp)
    · exact absurd h (by simp)
    · rename_i generated r1 hget
      split at h
      · exact absurd h (by simp)
      · rename_i a1 hload
        by_cases hpd : ¬ a1.parseDiags.isEmpty
        · rw [if_pos hpd] at h
          split at h
          · exact absurd h (by simp)
          · rename_i a2 hrb1
            split at h
            · exact absurd h (by simp)
            · rename_i d0 solver0 tr0 hsr
              by_cases hd0 : ¬ d0.isEmpty
              · rw [if_pos hd0] at h
                split at h
                · exact absurd h (by simp)
                · rename_i a3 hrb2
                  have hinj := Option.some.inj h
                  have haF : a3 = aF := congrArg (fun x => x.2.2.1) hinj
                  have hall := removeAll_unlinks { a2 with solver := solver0 }.newSymbols
                    { a2 with solver := solver0 } a3 hrb2
                  rw [← haF] at hs ⊢
                  exact hall.1 s (hall.2.1 ▸ hs)
              · rw [if_neg hd0] at h
                have hinj := Option.some.inj h
                have hdd : d0 = d := congrArg (fun x => x.2.1) hinj
                rw [hdd] at hd0
                exact absurd (not_not.mp hd0) hd
        · rw [if_neg hpd] at h
          simp only [] at h
          split at h
          · exact absurd h (by simp)
          · rename_i d0 solver0 tr0 hsr
            by_cases hd0 : ¬ d0.isEmpty
            · rw [if_pos hd0] at h
              split at h
              · exact absurd h (by simp)
              · rename_i a3 hrb2
                have hinj := Option.some.inj h
                have haF : a3 = aF := congrArg (fun x => x.2.2.1) hinj
                have hall := removeAll_unlinks { a1 with solver := solver0 }.newSymbols
                  { a1 with solver := solver0 } a3 hrb2
                rw [← haF] at hs ⊢
                exact hall.1 s (hall.2.1 ▸ hs)
            · rw [if_neg hd0] at h
              have hinj := Option.some.inj h
              have hdd : d0 = d := congrArg (fun x => x.2.1) hinj
              rw [hdd] at hd0
              exact absurd (not_not.mp hd0) hd

/-- Witness for `analyse_rollback_unlinks_tracked_symbols`: elaborating
`file3` (`f = \x. x`) ends with an UNINFERED_VAR solver diagnostic, and
both tracked symbols (4 and 5) are unlinked in the returned state. -/
theorem analyse_rollback_unlinks_tracked_symbols_witness :
    unlinked res3.2.2.1.reg 4 = true ∧ unlinked res3.2.2.1.reg 5 = true := by
  have h := analyse_rollback_unlinks_tracked_symbols.2 40 40 40 st0 2 file3 100
    res3.1 res3.2.1 res3.2.2.1 res3.2.2.2 rfl (by decide)
  exact ⟨h 4 (by decide), h 5 (by decide)⟩

end TC
